import Mathlib

/-!
Shallow embedding of the quantum-circuit simulator (js/complex.js,
js/quantum-state.js, js/quantum-gates.js, js/quantum-register.js,
js/algorithms.js).  JavaScript numbers are modelled as exact real
numbers (`ℝ`); the JS arrays of amplitudes of length `2^numQubits` are
modelled as functions `ℕ → Complex` that are zero outside the index
range; JS exceptions are modelled by `Except String`; `Math.random()`
samples are passed in as an explicit real parameter.
-/

namespace Qsim

noncomputable section

/-- Complex numbers as in js/complex.js: a pair of (real-modelled) floats. -/
structure Complex where
  re : ℝ
  im : ℝ

theorem Complex.ext {z w : Complex} (hre : z.re = w.re) (him : z.im = w.im) : z = w := by
  cases z; cases w; simp_all

/-- Complex.add from js/complex.js. -/
def Complex.add (z other : Complex) : Complex :=
  ⟨z.re + other.re, z.im + other.im⟩

/-- Complex.sub from js/complex.js. -/
def Complex.sub (z other : Complex) : Complex :=
  ⟨z.re - other.re, z.im - other.im⟩

/-- Complex.mul from js/complex.js. -/
def Complex.mul (z other : Complex) : Complex :=
  ⟨z.re * other.re - z.im * other.im, z.re * other.im + z.im * other.re⟩

/-- Complex.div from js/complex.js: throws on a denominator below 1e-15. -/
def Complex.div (z other : Complex) : Except String Complex :=
  let denominator := other.re * other.re + other.im * other.im
  if |denominator| < 1 / 10 ^ 15 then
    Except.error "Деление на ноль в комплексных числах"
  else
    Except.ok ⟨(z.re * other.re + z.im * other.im) / denominator,
               (z.im * other.re - z.re * other.im) / denominator⟩

/-- Complex.conj from js/complex.js. -/
def Complex.conj (z : Complex) : Complex := ⟨z.re, -z.im⟩

/-- Complex.abs from js/complex.js: `Math.sqrt(re*re + im*im)`. -/
def Complex.abs (z : Complex) : ℝ := Real.sqrt (z.re * z.re + z.im * z.im)

/-- Complex.equals from js/complex.js (componentwise comparison within eps). -/
def Complex.equals (z other : Complex) (eps : ℝ) : Prop :=
  |z.re - other.re| < eps ∧ |z.im - other.im| < eps

/-- Complex.ZERO from js/complex.js. -/
def Complex.ZERO : Complex := ⟨0, 0⟩

/-- Complex.ONE from js/complex.js. -/
def Complex.ONE : Complex := ⟨1, 0⟩

instance : Zero Complex := ⟨Complex.ZERO⟩

instance : Add Complex := ⟨Complex.add⟩

theorem Complex.add_eq (z w : Complex) : z.add w = z + w := rfl

theorem Complex.zero_eq : Complex.ZERO = 0 := rfl

@[simp] theorem Complex.add_re (z w : Complex) : (z + w).re = z.re + w.re := rfl

@[simp] theorem Complex.add_im (z w : Complex) : (z + w).im = z.im + w.im := rfl

@[simp] theorem Complex.zero_re : (0 : Complex).re = 0 := rfl

@[simp] theorem Complex.zero_im : (0 : Complex).im = 0 := rfl

@[simp] theorem Complex.mul_re (z w : Complex) : (z.mul w).re = z.re * w.re - z.im * w.im := rfl

@[simp] theorem Complex.mul_im (z w : Complex) : (z.mul w).im = z.re * w.im + z.im * w.re := rfl

instance : AddCommMonoid Complex where
  add_assoc a b c := Complex.ext (add_assoc _ _ _) (add_assoc _ _ _)
  zero_add a := Complex.ext (zero_add _) (zero_add _)
  add_zero a := Complex.ext (add_zero _) (add_zero _)
  add_comm a b := Complex.ext (add_comm _ _) (add_comm _ _)
  nsmul := nsmulRec

@[simp] theorem Complex.one_mul_c (z : Complex) : Complex.ONE.mul z = z := by
  refine Complex.ext ?_ ?_ <;> simp [Complex.mul, Complex.ONE]

@[simp] theorem Complex.zero_mul_c (z : Complex) : Complex.ZERO.mul z = 0 := by
  refine Complex.ext ?_ ?_ <;> simp [Complex.mul, Complex.ZERO]

@[simp] theorem Complex.mul_zero_c (z : Complex) : z.mul Complex.ZERO = 0 := by
  refine Complex.ext ?_ ?_ <;> simp [Complex.mul, Complex.ZERO]

/-- The square of `Complex.abs` is the sum of the squares of the parts. -/
theorem Complex.absSq (z : Complex) : z.abs * z.abs = z.re * z.re + z.im * z.im :=
  Real.mul_self_sqrt (add_nonneg (mul_self_nonneg _) (mul_self_nonneg _))

@[simp] theorem Complex.abs_zero_c : (0 : Complex).abs = 0 := by
  simp [Complex.abs]

theorem Complex.abs_nonneg_c (z : Complex) : 0 ≤ z.abs := Real.sqrt_nonneg _

@[simp] theorem okBind {ε α β : Type} (a : α) (f : α → Except ε β) :
    (Except.ok a >>= f) = f a := rfl

@[simp] theorem okMap {ε α β : Type} (f : α → β) (a : α) :
    Except.map f (Except.ok a : Except ε α) = Except.ok (f a) := rfl

/-- ComplexUtils.tensorProduct from js/complex.js (row-major in the first operand). -/
def ComplexUtils.tensorProduct (vec1 vec2 : List Complex) : List Complex :=
  (vec1.map (fun x => vec2.map (fun y => x.mul y))).flatten

/-- QuantumMatrix from js/quantum-gates.js: a dense matrix as a row list. -/
structure QuantumMatrix where
  elements : List (List Complex)

/-- Row count (`this.rows = elements.length`). -/
def QuantumMatrix.rows (m : QuantumMatrix) : ℕ := m.elements.length

/-- Column count (`this.cols = elements[0]?.length || 0`). -/
def QuantumMatrix.cols (m : QuantumMatrix) : ℕ := (m.elements.headD []).length

/-- Element access `elements[i][j]` (indices are in range at every use site). -/
def QuantumMatrix.el (m : QuantumMatrix) (i j : ℕ) : Complex :=
  (m.elements.getD i []).getD j Complex.ZERO

/-- QuantumMatrix.apply from js/quantum-gates.js: matrix-vector product,
throwing on a dimension mismatch. -/
def QuantumMatrix.apply (m : QuantumMatrix) (vector : List Complex) : Except String (List Complex) :=
  if m.cols ≠ vector.length then
    Except.error "Размерности матрицы и вектора не совпадают"
  else
    Except.ok ((List.range m.rows).map (fun i =>
      (List.range m.cols).foldl
        (fun sum j => sum.add ((m.el i j).mul (vector.getD j Complex.ZERO))) Complex.ZERO))

/-- QuantumMatrix.tensorProduct from js/quantum-gates.js (Kronecker product,
nested loops i, k over rows and j, l over columns). -/
def QuantumMatrix.tensorProduct (m other : QuantumMatrix) : QuantumMatrix :=
  ⟨((List.range m.rows).map (fun i => (List.range other.rows).map (fun k =>
      ((List.range m.cols).map (fun j => (List.range other.cols).map (fun l =>
        (m.el i j).mul (other.el k l)))).flatten))).flatten⟩

namespace QuantumGates

/-- Identity gate from js/quantum-gates.js. -/
def I : QuantumMatrix :=
  ⟨[[Complex.ONE, Complex.ZERO],
    [Complex.ZERO, Complex.ONE]]⟩

/-- Pauli-X gate from js/quantum-gates.js. -/
def X : QuantumMatrix :=
  ⟨[[Complex.ZERO, Complex.ONE],
    [Complex.ONE, Complex.ZERO]]⟩

/-- Pauli-Z gate from js/quantum-gates.js. -/
def Z : QuantumMatrix :=
  ⟨[[Complex.ONE, Complex.ZERO],
    [Complex.ZERO, ⟨-1, 0⟩]]⟩

/-- Hadamard gate from js/quantum-gates.js. -/
def H : QuantumMatrix :=
  ⟨[[⟨1 / Real.sqrt 2, 0⟩, ⟨1 / Real.sqrt 2, 0⟩],
    [⟨1 / Real.sqrt 2, 0⟩, ⟨-(1 / Real.sqrt 2), 0⟩]]⟩

/-- CNOT gate from js/quantum-gates.js. -/
def CNOT : QuantumMatrix :=
  ⟨[[Complex.ONE, Complex.ZERO, Complex.ZERO, Complex.ZERO],
    [Complex.ZERO, Complex.ONE, Complex.ZERO, Complex.ZERO],
    [Complex.ZERO, Complex.ZERO, Complex.ZERO, Complex.ONE],
    [Complex.ZERO, Complex.ZERO, Complex.ONE, Complex.ZERO]]⟩

end QuantumGates

/-- QuantumState from js/quantum-state.js: one qubit, amplitudes alpha, beta. -/
structure QuantumState where
  alpha : Complex
  beta : Complex

/-- QuantumState.normalize from js/quantum-state.js: divides by the norm, or
resets to the basis state when the norm is below 1e-15. -/
def QuantumState.normalizeState (alpha beta : Complex) : QuantumState :=
  let norm := Real.sqrt (alpha.abs * alpha.abs + beta.abs * beta.abs)
  if norm < 1 / 10 ^ 15 then
    ⟨Complex.ONE, Complex.ZERO⟩
  else
    ⟨⟨alpha.re / norm, alpha.im / norm⟩, ⟨beta.re / norm, beta.im / norm⟩⟩

/-- The QuantumState constructor: stores the amplitudes, then normalizes. -/
def QuantumState.make (alpha beta : Complex) : QuantumState :=
  QuantumState.normalizeState alpha beta

/-- QuantumState.zero from js/quantum-state.js. -/
def QuantumState.zero : QuantumState := QuantumState.make Complex.ONE Complex.ZERO

/-- QuantumState.plus from js/quantum-state.js. -/
def QuantumState.plus : QuantumState :=
  QuantumState.make ⟨1 / Real.sqrt 2, 0⟩ ⟨1 / Real.sqrt 2, 0⟩

/-- QuantumGates.applyTwoQubitGate from js/quantum-gates.js: builds the tensor
product vector of two single-qubit states, applies the 4x4 matrix, then
decomposes the result back into two separate states (declared in the source
as an approximation that is wrong for entangled outputs). -/
def QuantumGates.applyTwoQubitGate (state1 state2 : QuantumState) (gate : QuantumMatrix) :
    Except String (QuantumState × QuantumState) := do
  let vector := [state1.alpha.mul state2.alpha,
                 state1.alpha.mul state2.beta,
                 state1.beta.mul state2.alpha,
                 state1.beta.mul state2.beta]
  let result ← gate.apply vector
  let newState1 := QuantumState.make
    ⟨((result.getD 0 Complex.ZERO).abs + (result.getD 1 Complex.ZERO).abs) / Real.sqrt 2, 0⟩
    ⟨((result.getD 2 Complex.ZERO).abs + (result.getD 3 Complex.ZERO).abs) / Real.sqrt 2, 0⟩
  let newState2 := QuantumState.make
    ⟨((result.getD 0 Complex.ZERO).abs + (result.getD 2 Complex.ZERO).abs) / Real.sqrt 2, 0⟩
    ⟨((result.getD 1 Complex.ZERO).abs + (result.getD 3 Complex.ZERO).abs) / Real.sqrt 2, 0⟩
  return (newState1, newState2)

/-- QuantumRegister from js/quantum-register.js: n qubits and an amplitude
vector of length `2^numQubits`, modelled as a function that is zero outside
the range. -/
structure QuantumRegister where
  numQubits : ℕ
  amplitudes : ℕ → Complex

/-- The dimension `2^numQubits` of the register's state space. -/
def QuantumRegister.dimension (reg : QuantumRegister) : ℕ := 2 ^ reg.numQubits

/-- The amplitude vector set by `initialize()`: the basis state with
amplitude 1 at index 0 and 0 elsewhere. -/
def initialAmplitudes : ℕ → Complex :=
  fun i => if i = 0 then Complex.ONE else Complex.ZERO

/-- The QuantumRegister constructor: throws outside 1..20 qubits, otherwise
initializes to the all-zero basis state. -/
def QuantumRegister.make (numQubits : ℕ) : Except String QuantumRegister :=
  if numQubits < 1 ∨ numQubits > 20 then
    Except.error "Количество кубитов должно быть от 1 до 20"
  else
    Except.ok ⟨numQubits, initialAmplitudes⟩

/-- QuantumRegister.getAmplitude: range-checked amplitude read. -/
def QuantumRegister.getAmplitude (reg : QuantumRegister) (basisState : ℕ) :
    Except String Complex :=
  if basisState ≥ reg.dimension then
    Except.error "Индекс состояния вне диапазона"
  else
    Except.ok (reg.amplitudes basisState)

/-- QuantumRegister.setAmplitude: range-checked amplitude write (no
normalization is performed). -/
def QuantumRegister.setAmplitude (reg : QuantumRegister) (basisState : ℕ)
    (amplitude : Complex) : Except String QuantumRegister :=
  if basisState ≥ reg.dimension then
    Except.error "Индекс состояния вне диапазона"
  else
    Except.ok { reg with amplitudes := Function.update reg.amplitudes basisState amplitude }

/-- QuantumRegister.getProbability: `|amplitude|²` (the source range-checks
first; every call site indexes in range, and out-of-range reads are zero in
this model). -/
def QuantumRegister.getProbability (reg : QuantumRegister) (basisState : ℕ) : ℝ :=
  (reg.amplitudes basisState).abs * (reg.amplitudes basisState).abs

/-- QuantumRegister.getAllProbabilities: the list of all `dimension` probabilities. -/
def QuantumRegister.getAllProbabilities (reg : QuantumRegister) : List ℝ :=
  (List.range reg.dimension).map (fun s => reg.getProbability s)

/-- The running total `Σ |amplitude_i|²` over the amplitude vector, as computed
by `ComplexUtils.isNormalized`'s reduce loop. -/
def QuantumRegister.sumSq (reg : QuantumRegister) : ℝ :=
  ∑ s in Finset.range reg.dimension, (reg.amplitudes s).abs * (reg.amplitudes s).abs

/-- One iteration of the gate-application loop of
`QuantumRegister.applySingleQubitGate`: state `state` adds its two
contributions (chosen by its bit at `targetQubit`) into the accumulating
new amplitude vector. -/
def gateStep (gate : QuantumMatrix) (targetQubit : ℕ) (old : ℕ → Complex)
    (acc : ℕ → Complex) (state : ℕ) : ℕ → Complex :=
  let bit := (state >>> targetQubit) &&& 1
  let flippedState := state ^^^ (1 <<< targetQubit)
  if bit = 0 then
    let acc1 := Function.update acc state ((acc state).add ((gate.el 0 0).mul (old state)))
    Function.update acc1 flippedState ((acc1 flippedState).add ((gate.el 1 0).mul (old state)))
  else
    let acc1 := Function.update acc state ((acc state).add ((gate.el 1 1).mul (old state)))
    Function.update acc1 flippedState ((acc1 flippedState).add ((gate.el 0 1).mul (old state)))

/-- QuantumRegister.applySingleQubitGate from js/quantum-register.js: throws
when the qubit index is out of range, otherwise replaces the amplitude
vector by the loop accumulation over all basis states starting from a fresh
zero vector. -/
def QuantumRegister.applySingleQubitGate (reg : QuantumRegister) (gate : QuantumMatrix)
    (targetQubit : ℕ) : Except String QuantumRegister :=
  if targetQubit ≥ reg.numQubits then
    Except.error "Номер кубита должен быть от 0 до numQubits-1"
  else
    Except.ok { reg with amplitudes :=
      ((List.range reg.dimension).foldl (gateStep gate targetQubit reg.amplitudes)
        (fun _ => Complex.ZERO)) }

/-- The collapse-search loop of `QuantumRegister.measureAll`: walk the
probability list accumulating the cumulative probability and return the
first index where `random < cumulativeProb`, or none if the loop finishes. -/
def findCollapse (r : ℝ) : ℝ → ℕ → List ℝ → Option ℕ
  | _, _, [] => none
  | cumulativeProb, i, p :: rest =>
    let c := cumulativeProb + p
    if r < c then some i else findCollapse r c (i + 1) rest

/-- QuantumRegister.measureAll from js/quantum-register.js, with the uniform
sample `r` passed explicitly.  On a hit at index i the register is
re-initialized and then index i is set to 1 (note: index 0 keeps amplitude 1
from `initialize()` when i ≠ 0); if the loop finishes, the fallback
re-initializes and returns 0. -/
def QuantumRegister.measureAll (reg : QuantumRegister) (r : ℝ) : ℕ × QuantumRegister :=
  let probabilities := reg.getAllProbabilities
  match findCollapse r 0 0 probabilities with
  | some i => (i, { reg with amplitudes := Function.update initialAmplitudes i Complex.ONE })
  | none => (0, { reg with amplitudes := initialAmplitudes })

/-- QuantumRegister.measureQubit from js/quantum-register.js, with the uniform
sample `r` passed explicitly: computes P(bit=0), samples the outcome, zeroes
the non-matching amplitudes, and divides the survivors by the square root of
the accumulated normalization factor when that factor is positive. -/
def QuantumRegister.measureQubit (reg : QuantumRegister) (qubitIndex : ℕ) (r : ℝ) :
    Except String (ℕ × QuantumRegister) :=
  if qubitIndex ≥ reg.numQubits then
    Except.error "Номер кубита должен быть от 0 до numQubits-1"
  else
    let prob0 : ℝ := ∑ s in Finset.range reg.dimension,
      if (s >>> qubitIndex) &&& 1 = 0 then reg.getProbability s else 0
    let result : ℕ := if r < prob0 then 0 else 1
    let survivors : ℕ → Complex := fun s =>
      if (s >>> qubitIndex) &&& 1 = result then reg.amplitudes s else Complex.ZERO
    let normalizationFactor : ℝ := ∑ s in Finset.range reg.dimension,
      (survivors s).abs * (survivors s).abs
    let newAmplitudes : ℕ → Complex :=
      if 0 < normalizationFactor then
        fun s => ⟨(survivors s).re / Real.sqrt normalizationFactor,
                  (survivors s).im / Real.sqrt normalizationFactor⟩
      else survivors
    Except.ok (result, { reg with amplitudes := newAmplitudes })

/-- The conditional (unnormalized) probability mass of reading `outcome` on
qubit `i`: the sum of `|amplitude|²` over the basis states whose bit `i`
equals `outcome`.  This is the quantity the source accumulates as
`normalizationFactor`. -/
def QuantumRegister.conditionalMass (reg : QuantumRegister) (i outcome : ℕ) : ℝ :=
  ∑ s in Finset.range reg.dimension,
    if (s >>> i) &&& 1 = outcome then (reg.amplitudes s).abs * (reg.amplitudes s).abs else 0

/-- QuantumRegister.createWState from js/quantum-register.js: a fresh register
whose one-hot basis states each get amplitude `1/√n` via setAmplitude (no
other amplitude is written). -/
def QuantumRegister.createWState (numQubits : ℕ) : Except String QuantumRegister := do
  let register ← QuantumRegister.make numQubits
  let amp : Complex := ⟨1 / Real.sqrt numQubits, 0⟩
  (List.range numQubits).foldlM
    (fun reg i => reg.setAmplitude (1 <<< (numQubits - 1 - i)) amp) register

/-- Character-list prefix test, used to model `String.includes`. -/
def listPrefixEq : List Char → List Char → Bool
  | [], _ => true
  | _ :: _, [] => false
  | a :: as, b :: bs => a = b && listPrefixEq as bs

/-- Substring test on character lists, modelling JavaScript `includes`. -/
def listIncludes (sub : List Char) : List Char → Bool
  | [] => listPrefixEq sub []
  | c :: rest => listPrefixEq sub (c :: rest) || listIncludes sub rest

/-- QuantumAlgorithms.checkDeutschResult from js/algorithms.js:
`functionType.includes('constant') === (interpretation === 'константная')`. -/
def checkDeutschResult (functionType inter : String) : Bool :=
  let expectedConstant := listIncludes "constant".toList functionType.toList
  let gotConstant := inter = "константная"
  expectedConstant = gotConstant

/-- Writes the amplitude list back into the register index by index, as the
`for` loops in applyDeutschOracle and applyGroverOracle do via setAmplitude. -/
def setAllAmplitudes (register : QuantumRegister) (newAmplitudes : List Complex) :
    Except String QuantumRegister :=
  (List.range register.dimension).foldlM
    (fun reg i => reg.setAmplitude i (newAmplitudes.getD i Complex.ZERO)) register

/-- QuantumAlgorithms.applyDeutschOracle from js/algorithms.js: selects the
oracle matrix by function type; for 'balanced-not' it applies X to qubit 1
in place and skips the matrix application, otherwise it reads the amplitude
vector, applies the matrix, and writes the result back.  The display strings
of the source are omitted. -/
def applyDeutschOracle (register : QuantumRegister) (functionType : String) :
    Except String QuantumRegister := do
  let gateMatrix :=
    if functionType = "constant-0" then QuantumGates.I.tensorProduct QuantumGates.I
    else if functionType = "constant-1" then QuantumGates.I.tensorProduct QuantumGates.X
    else if functionType = "balanced-identity" then QuantumGates.CNOT
    else if functionType = "balanced-not" then QuantumGates.CNOT
    else QuantumGates.I.tensorProduct QuantumGates.I
  let register ←
    if functionType = "balanced-not" then
      register.applySingleQubitGate QuantumGates.X 1
    else
      Except.ok register
  if functionType ≠ "balanced-not" then
    let currentAmplitudes ← (List.range register.dimension).mapM register.getAmplitude
    let newAmplitudes ← gateMatrix.apply currentAmplitudes
    setAllAmplitudes register newAmplitudes
  else
    Except.ok register

/-- The result record of deutschAlgorithm (the step log's display strings are
omitted; the register states they record are the intermediate states of the
computation below). -/
structure DeutschResult where
  algorithm : String
  functionType : String
  measurementResult : ℕ
  interp : String
  isCorrect : Bool
  finalRegister : QuantumRegister

/-- QuantumAlgorithms.deutschAlgorithm from js/algorithms.js, with the uniform
sample `r` of the qubit-0 measurement passed explicitly.  Note that step 1
performs `setAmplitude(1, ONE)` on a freshly constructed register without
clearing the amplitude at index 0. -/
def deutschAlgorithm (functionType : String) (r : ℝ) : Except String DeutschResult := do
  let register ← QuantumRegister.make 2
  let register ← register.setAmplitude 1 Complex.ONE
  let register ← register.applySingleQubitGate QuantumGates.H 0
  let register ← register.applySingleQubitGate QuantumGates.H 1
  let register ← applyDeutschOracle register functionType
  let register ← register.applySingleQubitGate QuantumGates.H 0
  let (measurementResult, register) ← register.measureQubit 0 r
  let inter := if measurementResult = 0 then "константная" else "сбалансированная"
  let isCorrect := checkDeutschResult functionType inter
  return { algorithm := "Deutsch", functionType := functionType,
           measurementResult := measurementResult, interp := inter,
           isCorrect := isCorrect, finalRegister := register }

/-- QuantumAlgorithms.applyGroverOracle from js/algorithms.js: builds the
diagonal matrix negating the target index, applies it to the amplitude
vector, and writes the result back. -/
def applyGroverOracle (register : QuantumRegister) (targetItem : ℕ) :
    Except String QuantumRegister := do
  let oracleMatrix : QuantumMatrix := ⟨(List.range register.dimension).map (fun i =>
    (List.range register.dimension).map (fun j =>
      if i = j then (if i = targetItem then ⟨-1, 0⟩ else Complex.ONE) else Complex.ZERO))⟩
  let currentAmplitudes ← (List.range register.dimension).mapM register.getAmplitude
  let newAmplitudes ← oracleMatrix.apply currentAmplitudes
  setAllAmplitudes register newAmplitudes

/-- QuantumAlgorithms.applyGroverDiffuser from js/algorithms.js:
H on both qubits, negate the amplitude of index 0, H on both qubits. -/
def applyGroverDiffuser (register : QuantumRegister) : Except String QuantumRegister := do
  let register ← register.applySingleQubitGate QuantumGates.H 0
  let register ← register.applySingleQubitGate QuantumGates.H 1
  let currentAmplitude ← register.getAmplitude 0
  let register ← register.setAmplitude 0 (currentAmplitude.mul ⟨-1, 0⟩)
  let register ← register.applySingleQubitGate QuantumGates.H 0
  register.applySingleQubitGate QuantumGates.H 1

/-- The Grover iteration loop: `iterations` rounds of oracle then diffuser. -/
def groverIterate (targetItem : ℕ) : ℕ → QuantumRegister → Except String QuantumRegister
  | 0, register => Except.ok register
  | k + 1, register => do
    let register ← applyGroverOracle register targetItem
    let register ← applyGroverDiffuser register
    groverIterate targetItem k register

/-- The result record of groverAlgorithm (display strings omitted;
`targetProbability` is the probability of the target recorded at the step
immediately before the final measurement). -/
structure GroverResult where
  algorithm : String
  target : ℕ
  iterations : ℕ
  measurementResult : ℕ
  foundCorrect : Bool
  targetProbability : ℝ
  finalRegister : QuantumRegister

/-- QuantumAlgorithms.groverAlgorithm from js/algorithms.js, with the uniform
sample `r` of the final measureAll passed explicitly.  `iterationsArg` models
the optional `iterations` parameter (`null` becomes `none`, defaulting to
`Math.floor(π/4·√4)`). -/
def groverAlgorithm (targetItem : ℕ) (iterationsArg : Option ℕ) (r : ℝ) :
    Except String GroverResult :=
  if targetItem > 3 then
    Except.error "Целевой элемент должен быть от 0 до 3 для двухкубитного случая"
  else do
    let optimalIterations := ⌊Real.pi / 4 * Real.sqrt 4⌋₊
    let iterations := iterationsArg.getD optimalIterations
    let register ← QuantumRegister.make 2
    let register ← register.applySingleQubitGate QuantumGates.H 0
    let register ← register.applySingleQubitGate QuantumGates.H 1
    let register ← groverIterate targetItem iterations register
    let preProbabilities := register.getAllProbabilities
    let (measurementResult, register) := register.measureAll r
    return { algorithm := "Grover", target := targetItem, iterations := iterations,
             measurementResult := measurementResult,
             foundCorrect := measurementResult = targetItem,
             targetProbability := preProbabilities.getD targetItem 0,
             finalRegister := register }

/-! Bit-manipulation helper lemmas for the index arithmetic of the register. -/

theorem band_one_eq_toNat (s q : ℕ) : (s >>> q) &&& 1 = (s.testBit q).toNat := by
  rw [Nat.and_one_is_mod, Nat.shiftRight_eq_div_pow, Nat.toNat_testBit]

theorem one_shiftLeft_eq (q : ℕ) : (1 : ℕ) <<< q = 2 ^ q := by
  rw [Nat.shiftLeft_eq, one_mul]

theorem bit_xor_flip (s q : ℕ) :
    ((s ^^^ (1 <<< q)) >>> q) &&& 1 = 1 - ((s >>> q) &&& 1) := by
  rw [band_one_eq_toNat, band_one_eq_toNat, one_shiftLeft_eq, Nat.testBit_xor,
    Nat.testBit_two_pow_self]
  cases s.testBit q <;> rfl

theorem band_one_cases (s q : ℕ) : (s >>> q) &&& 1 = 0 ∨ (s >>> q) &&& 1 = 1 := by
  rw [Nat.and_one_is_mod]
  exact Nat.mod_two_eq_zero_or_one _

theorem xor_flip_ne (s q : ℕ) : s ^^^ (1 <<< q) ≠ s := by
  intro h
  have h1 : ((s ^^^ (1 <<< q)) >>> q) &&& 1 = (s >>> q) &&& 1 := by rw [h]
  rw [bit_xor_flip] at h1
  rcases band_one_cases s q with hb | hb <;> omega

theorem xor_flip_invol (s m : ℕ) : (s ^^^ m) ^^^ m = s := by
  rw [Nat.xor_assoc, Nat.xor_self, Nat.xor_zero]

theorem xor_flip_lt {s q n : ℕ} (hs : s < 2 ^ n) (hq : q < n) : s ^^^ (1 <<< q) < 2 ^ n := by
  rw [one_shiftLeft_eq]
  exact Nat.xor_lt_two_pow hs (Nat.pow_lt_pow_right one_lt_two hq)

/-- The contribution that loop iteration `state = s` of the gate-application
loop adds at target index `t`. -/
def gateContrib (gate : QuantumMatrix) (q : ℕ) (old : ℕ → Complex) (s t : ℕ) : Complex :=
  (if t = s then
    (if (s >>> q) &&& 1 = 0 then (gate.el 0 0).mul (old s) else (gate.el 1 1).mul (old s))
   else 0)
  + (if t = s ^^^ (1 <<< q) then
    (if (s >>> q) &&& 1 = 0 then (gate.el 1 0).mul (old s) else (gate.el 0 1).mul (old s))
   else 0)

theorem gateStep_apply (gate : QuantumMatrix) (q : ℕ) (old acc : ℕ → Complex) (s t : ℕ) :
    gateStep gate q old acc s t = acc t + gateContrib gate q old s t := by
  have hne : s ^^^ (1 <<< q) ≠ s := xor_flip_ne s q
  by_cases hb : (s >>> q) &&& 1 = 0 <;>
    by_cases ht1 : t = s <;>
      by_cases ht2 : t = s ^^^ (1 <<< q) <;>
        simp_all [gateStep, gateContrib, Function.update_apply, Complex.add_eq, add_assoc]

theorem foldl_gateStep (gate : QuantumMatrix) (q : ℕ) (old : ℕ → Complex) (L : List ℕ)
    (acc : ℕ → Complex) (t : ℕ) :
    (L.foldl (gateStep gate q old) acc) t
      = acc t + (L.map (fun s => gateContrib gate q old s t)).sum := by
  induction L generalizing acc with
  | nil => simp
  | cons s rest ih => simp [List.foldl_cons, ih, gateStep_apply, add_assoc]

theorem list_range_map_sum {M : Type} [AddCommMonoid M] (f : ℕ → M) (n : ℕ) :
    ((List.range n).map f).sum = ∑ s in Finset.range n, f s := by
  induction n with
  | zero => simp
  | succ k ih => rw [List.range_succ, List.map_append, List.sum_append,
      Finset.sum_range_succ, ih]; simp

theorem applySingleQubitGate_numQubits {reg reg' : QuantumRegister} {gate : QuantumMatrix}
    {q : ℕ} (h : reg.applySingleQubitGate gate q = Except.ok reg') :
    reg'.numQubits = reg.numQubits := by
  unfold QuantumRegister.applySingleQubitGate at h
  split at h
  · cases h
  · cases h; rfl

/-- The pointwise description of the amplitude vector after
`applySingleQubitGate` with an in-range qubit index: each basis index with
bit `q` clear holds row 0 of the matrix applied to its pair, its partner
holds row 1, and indices outside the dimension are zero. -/
theorem applySingleQubitGate_amp {reg reg' : QuantumRegister} {gate : QuantumMatrix}
    {q : ℕ} (hq : q < reg.numQubits)
    (h : reg.applySingleQubitGate gate q = Except.ok reg') (t : ℕ) :
    reg'.amplitudes t =
      if t < reg.dimension then
        (if (t >>> q) &&& 1 = 0 then
          (gate.el 0 0).mul (reg.amplitudes t)
            + (gate.el 0 1).mul (reg.amplitudes (t ^^^ (1 <<< q)))
        else
          (gate.el 1 0).mul (reg.amplitudes (t ^^^ (1 <<< q)))
            + (gate.el 1 1).mul (reg.amplitudes t))
      else 0 := by
  have hreg' : reg'.amplitudes
      = (List.range reg.dimension).foldl (gateStep gate q reg.amplitudes)
          (fun _ => Complex.ZERO) := by
    unfold QuantumRegister.applySingleQubitGate at h
    rw [if_neg (by omega)] at h
    cases h; rfl
  rw [hreg', foldl_gateStep, list_range_map_sum]
  have hsum : ∑ s in Finset.range reg.dimension, gateContrib gate q reg.amplitudes s t
      = (∑ s in Finset.range reg.dimension,
          if t = s then
            (if (s >>> q) &&& 1 = 0 then (gate.el 0 0).mul (reg.amplitudes s)
             else (gate.el 1 1).mul (reg.amplitudes s))
          else 0)
        + ∑ s in Finset.range reg.dimension,
          if t ^^^ (1 <<< q) = s then
            (if (s >>> q) &&& 1 = 0 then (gate.el 1 0).mul (reg.amplitudes s)
             else (gate.el 0 1).mul (reg.amplitudes s))
          else 0 := by
    rw [← Finset.sum_add_distrib]
    refine Finset.sum_congr rfl (fun s _ => ?_)
    unfold gateContrib
    have hiff : t = s ^^^ (1 <<< q) ↔ t ^^^ (1 <<< q) = s := by
      constructor
      · intro he; rw [he, xor_flip_invol]
      · intro he; rw [← he, xor_flip_invol]
    by_cases hc : t = s ^^^ (1 <<< q)
    · rw [if_pos hc, if_pos (hiff.mp hc)]
    · rw [if_neg hc, if_neg (fun he => hc (hiff.mpr he))]
  rw [hsum, Finset.sum_ite_eq, Finset.sum_ite_eq]
  simp only [Complex.zero_eq, zero_add]
  by_cases ht : t < reg.dimension
  · have htm : t ^^^ (1 <<< q) ∈ Finset.range reg.dimension :=
      Finset.mem_range.mpr (xor_flip_lt (by simpa [QuantumRegister.dimension] using ht) hq)
    rw [if_pos (Finset.mem_range.mpr ht), if_pos htm, if_pos ht]
    have hflip : ((t ^^^ (1 <<< q)) >>> q) &&& 1 = 1 - ((t >>> q) &&& 1) := bit_xor_flip t q
    rcases band_one_cases t q with hb | hb
    · simp [hb, hflip]
    · simp [hb, hflip, add_comm]
  · have htm : t ^^^ (1 <<< q) ∉ Finset.range reg.dimension := by
      intro hmem
      have hlt : (t ^^^ (1 <<< q)) ^^^ (1 <<< q) < 2 ^ reg.numQubits :=
        xor_flip_lt (by simpa [QuantumRegister.dimension] using Finset.mem_range.mp hmem) hq
      rw [xor_flip_invol] at hlt
      exact ht (by simpa [QuantumRegister.dimension] using hlt)
    rw [if_neg (fun hmem => ht (Finset.mem_range.mp hmem)), if_neg htm, if_neg ht]
    simp

/-- Unitarity of the 2x2 top-left block of a gate matrix, written out as the
orthonormality of its two columns in real components. -/
def IsUnitary2 (g : QuantumMatrix) : Prop :=
  ((g.el 0 0).re * (g.el 0 0).re + (g.el 0 0).im * (g.el 0 0).im
    + (g.el 1 0).re * (g.el 1 0).re + (g.el 1 0).im * (g.el 1 0).im = 1)
  ∧ ((g.el 0 1).re * (g.el 0 1).re + (g.el 0 1).im * (g.el 0 1).im
    + (g.el 1 1).re * (g.el 1 1).re + (g.el 1 1).im * (g.el 1 1).im = 1)
  ∧ ((g.el 0 0).re * (g.el 0 1).re + (g.el 0 0).im * (g.el 0 1).im
    + (g.el 1 0).re * (g.el 1 1).re + (g.el 1 0).im * (g.el 1 1).im = 0)
  ∧ ((g.el 0 0).re * (g.el 0 1).im - (g.el 0 0).im * (g.el 0 1).re
    + (g.el 1 0).re * (g.el 1 1).im - (g.el 1 0).im * (g.el 1 1).re = 0)

theorem unitary_pair_norm {g : QuantumMatrix} (hu : IsUnitary2 g) (x y : Complex) :
    ((g.el 0 0).mul x + (g.el 0 1).mul y).abs * ((g.el 0 0).mul x + (g.el 0 1).mul y).abs
      + ((g.el 1 0).mul x + (g.el 1 1).mul y).abs * ((g.el 1 0).mul x + (g.el 1 1).mul y).abs
    = x.abs * x.abs + y.abs * y.abs := by
  obtain ⟨h1, h2, h3, h4⟩ := hu
  rw [Complex.absSq, Complex.absSq, Complex.absSq, Complex.absSq]
  simp only [Complex.add_re, Complex.add_im, Complex.mul_re, Complex.mul_im]
  linear_combination (x.re * x.re + x.im * x.im) * h1 + (y.re * y.re + y.im * y.im) * h2
    + (2 * (x.re * y.re + x.im * y.im)) * h3 + (-(2 * (x.re * y.im - x.im * y.re))) * h4

/-- Splitting a sum over all basis indices into a sum over the indices with
bit `q` clear, each paired with its bit-flipped partner. -/
theorem sum_range_pair_split {n q : ℕ} (hq : q < n) (F : ℕ → ℝ) :
    ∑ t in Finset.range (2 ^ n), F t
      = ∑ t in (Finset.range (2 ^ n)).filter (fun t => (t >>> q) &&& 1 = 0),
          (F t + F (t ^^^ (1 <<< q))) := by
  rw [← Finset.sum_filter_add_sum_filter_not (Finset.range (2 ^ n))
    (fun t => (t >>> q) &&& 1 = 0) F]
  rw [Finset.sum_add_distrib]
  congr 1
  refine Finset.sum_nbij' (fun t => t ^^^ (1 <<< q)) (fun t => t ^^^ (1 <<< q))
    ?_ ?_ ?_ ?_ ?_
  · intro a ha
    rw [Finset.mem_filter] at ha ⊢
    obtain ⟨ha1, ha2⟩ := ha
    refine ⟨Finset.mem_range.mpr (xor_flip_lt (Finset.mem_range.mp ha1) hq), ?_⟩
    rw [bit_xor_flip]
    rcases band_one_cases a q with hb | hb
    · exact absurd hb ha2
    · rw [hb]
  · intro a ha
    rw [Finset.mem_filter] at ha ⊢
    obtain ⟨ha1, ha2⟩ := ha
    refine ⟨Finset.mem_range.mpr (xor_flip_lt (Finset.mem_range.mp ha1) hq), ?_⟩
    rw [bit_xor_flip, ha2]
    omega
  · intro a _; exact xor_flip_invol a _
  · intro a _; exact xor_flip_invol a _
  · intro a _
    show F a = F ((a ^^^ (1 <<< q)) ^^^ (1 <<< q))
    rw [xor_flip_invol]

/-- A register built by the constructor is exactly normalized. -/
theorem sumSq_make {n : ℕ} {reg : QuantumRegister} (h : QuantumRegister.make n = Except.ok reg) :
    reg.sumSq = 1 := by
  unfold QuantumRegister.make at h
  split at h
  · cases h
  · cases h
    unfold QuantumRegister.sumSq
    have hterm : ∀ s, (initialAmplitudes s).abs * (initialAmplitudes s).abs
        = if s = 0 then 1 else 0 := by
      intro s
      by_cases hs : s = 0 <;>
        simp [initialAmplitudes, hs, Complex.abs, Complex.ONE, Complex.ZERO]
    calc (∑ s in Finset.range (QuantumRegister.mk n initialAmplitudes).dimension,
            ((QuantumRegister.mk n initialAmplitudes).amplitudes s).abs
              * ((QuantumRegister.mk n initialAmplitudes).amplitudes s).abs)
        = ∑ s in Finset.range (2 ^ n), if s = 0 then (1 : ℝ) else 0 := by
          exact Finset.sum_congr rfl (fun s _ => hterm s)
      _ = 1 := by
          rw [Finset.sum_ite_eq' (Finset.range (2 ^ n)) 0 (fun _ => (1 : ℝ))]
          rw [if_pos (Finset.mem_range.mpr (Nat.pos_pow_of_pos n (by norm_num)))]

/-- Applying a gate whose 2x2 block is unitary preserves the running total
`Σ |amplitude|²`. -/
theorem sumSq_applySingleQubitGate {reg reg' : QuantumRegister} {gate : QuantumMatrix}
    {q : ℕ} (hq : q < reg.numQubits) (hu : IsUnitary2 gate)
    (h : reg.applySingleQubitGate gate q = Except.ok reg') :
    reg'.sumSq = reg.sumSq := by
  have hn : reg'.numQubits = reg.numQubits := applySingleQubitGate_numQubits h
  have hd : reg'.dimension = 2 ^ reg.numQubits := by
    unfold QuantumRegister.dimension; rw [hn]
  unfold QuantumRegister.sumSq
  rw [hd]
  rw [show reg.dimension = 2 ^ reg.numQubits from rfl]
  rw [sum_range_pair_split hq, sum_range_pair_split hq]
  refine Finset.sum_congr rfl (fun t ht => ?_)
  rw [Finset.mem_filter, Finset.mem_range] at ht
  obtain ⟨ht1, ht2⟩ := ht
  have htm : t ^^^ (1 <<< q) < 2 ^ reg.numQubits := xor_flip_lt ht1 hq
  have hbm : ((t ^^^ (1 <<< q)) >>> q) &&& 1 = 1 := by
    rw [bit_xor_flip, ht2]
  have ha1 : reg'.amplitudes t
      = (gate.el 0 0).mul (reg.amplitudes t)
        + (gate.el 0 1).mul (reg.amplitudes (t ^^^ (1 <<< q))) := by
    rw [applySingleQubitGate_amp hq h t,
      if_pos (show t < reg.dimension from ht1), if_pos ht2]
  have ha2 : reg'.amplitudes (t ^^^ (1 <<< q))
      = (gate.el 1 0).mul (reg.amplitudes t)
        + (gate.el 1 1).mul (reg.amplitudes (t ^^^ (1 <<< q))) := by
    rw [applySingleQubitGate_amp hq h (t ^^^ (1 <<< q)),
      if_pos (show t ^^^ (1 <<< q) < reg.dimension from htm),
      if_neg (by rw [hbm]; norm_num), xor_flip_invol]
  rw [ha1, ha2]
  exact unitary_pair_norm hu (reg.amplitudes t) (reg.amplitudes (t ^^^ (1 <<< q)))

theorem Complex.eq_zero_of_mass_zero {z : Complex} (h : z.abs * z.abs = 0) :
    z = Complex.ZERO := by
  rw [Complex.absSq] at h
  obtain ⟨h1, h2⟩ := (add_eq_zero_iff_of_nonneg (mul_self_nonneg _) (mul_self_nonneg _)).mp h
  exact Complex.ext (mul_self_eq_zero.mp h1) (mul_self_eq_zero.mp h2)

theorem conditionalMass_nonneg (reg : QuantumRegister) (i outcome : ℕ) :
    0 ≤ reg.conditionalMass i outcome := by
  refine Finset.sum_nonneg (fun s _ => ?_)
  split
  · exact mul_self_nonneg _
  · exact le_refl 0

/-- The normalization factor accumulated over the survivor amplitudes is the
conditional probability mass of the sampled outcome. -/
theorem survivors_mass (reg : QuantumRegister) (i outcome : ℕ) :
    (∑ s in Finset.range reg.dimension,
      ((if (s >>> i) &&& 1 = outcome then reg.amplitudes s else Complex.ZERO).abs
        * (if (s >>> i) &&& 1 = outcome then reg.amplitudes s else Complex.ZERO).abs))
    = reg.conditionalMass i outcome := by
  unfold QuantumRegister.conditionalMass
  refine Finset.sum_congr rfl (fun s _ => ?_)
  by_cases hb : (s >>> i) &&& 1 = outcome
  · rw [if_pos hb, if_pos hb]
  · rw [if_neg hb, if_neg hb, Complex.zero_eq, Complex.abs_zero_c, mul_zero]

theorem measureQubit_inversion {reg reg' : QuantumRegister} {i result : ℕ} {r : ℝ}
    (hi : i < reg.numQubits) (hok : reg.measureQubit i r = Except.ok (result, reg')) :
    result = (if r < (∑ s in Finset.range reg.dimension,
        if (s >>> i) &&& 1 = 0 then reg.getProbability s else 0) then 0 else 1)
    ∧ reg'.numQubits = reg.numQubits
    ∧ reg'.amplitudes =
        (if 0 < reg.conditionalMass i result then
          (fun s => ⟨(if (s >>> i) &&& 1 = result then reg.amplitudes s else Complex.ZERO).re
                        / Real.sqrt (reg.conditionalMass i result),
                     (if (s >>> i) &&& 1 = result then reg.amplitudes s else Complex.ZERO).im
                        / Real.sqrt (reg.conditionalMass i result)⟩)
        else
          (fun s => if (s >>> i) &&& 1 = result then reg.amplitudes s else Complex.ZERO)) := by
  unfold QuantumRegister.measureQubit at hok
  rw [if_neg (by omega)] at hok
  simp only [Except.ok.injEq, Prod.mk.injEq] at hok
  obtain ⟨hres, hreg⟩ := hok
  subst hres
  subst hreg
  refine ⟨rfl, rfl, ?_⟩
  rw [survivors_mass reg i _]

/-- Pointwise description of the post-measurement amplitudes when the sampled
outcome has nonzero conditional mass: survivors are divided componentwise by
the square root of the mass, the rest are zero. -/
theorem measureQubit_collapse_amp {reg reg' : QuantumRegister} {i result : ℕ} {r : ℝ}
    (hi : i < reg.numQubits) (hok : reg.measureQubit i r = Except.ok (result, reg'))
    (hp : reg.conditionalMass i result ≠ 0) (s : ℕ) :
    ((s >>> i) &&& 1 = result →
      reg'.amplitudes s = ⟨(reg.amplitudes s).re / Real.sqrt (reg.conditionalMass i result),
                           (reg.amplitudes s).im / Real.sqrt (reg.conditionalMass i result)⟩)
    ∧ ((s >>> i) &&& 1 ≠ result → reg'.amplitudes s = Complex.ZERO) := by
  obtain ⟨-, -, hamps⟩ := measureQubit_inversion hi hok
  have hpos : 0 < reg.conditionalMass i result :=
    lt_of_le_of_ne (conditionalMass_nonneg reg i result) (Ne.symm hp)
  rw [if_pos hpos] at hamps
  constructor
  · intro hb
    rw [hamps]
    simp only [if_pos hb]
  · intro hb
    rw [hamps]
    simp only [if_neg hb]
    exact Complex.ext (by simp [Complex.ZERO]) (by simp [Complex.ZERO])

/-- Pointwise description of the post-measurement amplitudes when the sampled
outcome has zero conditional mass: the renormalization is skipped and every
in-range amplitude ends as zero. -/
theorem measureQubit_zero_amp {reg reg' : QuantumRegister} {i result : ℕ} {r : ℝ}
    (hi : i < reg.numQubits) (hok : reg.measureQubit i r = Except.ok (result, reg'))
    (hp : reg.conditionalMass i result = 0) (s : ℕ) (hs : s < reg.dimension) :
    reg'.amplitudes s = Complex.ZERO := by
  obtain ⟨-, -, hamps⟩ := measureQubit_inversion hi hok
  rw [if_neg (by rw [hp]; exact lt_irrefl 0)] at hamps
  simp only [hamps]
  by_cases hb : (s >>> i) &&& 1 = result
  · rw [if_pos hb]
    have hterms := (Finset.sum_eq_zero_iff_of_nonneg (fun t _ => by
      show (0:ℝ) ≤ if (t >>> i) &&& 1 = result
        then (reg.amplitudes t).abs * (reg.amplitudes t).abs else 0
      split
      · exact mul_self_nonneg _
      · exact le_refl 0)).mp hp s (Finset.mem_range.mpr hs)
    rw [if_pos hb] at hterms
    exact Complex.eq_zero_of_mass_zero hterms
  · rw [if_neg hb]

/-- After a measureQubit whose sampled outcome has nonzero mass, the register
is exactly normalized again. -/
theorem sumSq_measureQubit {reg reg' : QuantumRegister} {i result : ℕ} {r : ℝ}
    (hi : i < reg.numQubits) (hok : reg.measureQubit i r = Except.ok (result, reg'))
    (hp : reg.conditionalMass i result ≠ 0) :
    reg'.sumSq = 1 := by
  obtain ⟨-, hn, hamps⟩ := measureQubit_inversion hi hok
  have hpos : 0 < reg.conditionalMass i result :=
    lt_of_le_of_ne (conditionalMass_nonneg reg i result) (Ne.symm hp)
  rw [if_pos hpos] at hamps
  have hd : reg'.dimension = reg.dimension := by
    unfold QuantumRegister.dimension; rw [hn]
  unfold QuantumRegister.sumSq
  rw [hd]
  have hterm : ∀ s, (reg'.amplitudes s).abs * (reg'.amplitudes s).abs
      = ((if (s >>> i) &&& 1 = result then reg.amplitudes s else Complex.ZERO).abs
          * (if (s >>> i) &&& 1 = result then reg.amplitudes s else Complex.ZERO).abs)
        / reg.conditionalMass i result := by
    intro s
    simp only [hamps]
    rw [Complex.absSq, Complex.absSq]
    have hsq : Real.sqrt (reg.conditionalMass i result)
        * Real.sqrt (reg.conditionalMass i result) = reg.conditionalMass i result :=
      Real.mul_self_sqrt (le_of_lt hpos)
    rw [div_mul_div_comm, div_mul_div_comm, hsq, div_add_div_same]
  calc (∑ s in Finset.range reg.dimension, (reg'.amplitudes s).abs * (reg'.amplitudes s).abs)
      = (∑ s in Finset.range reg.dimension,
          ((if (s >>> i) &&& 1 = result then reg.amplitudes s else Complex.ZERO).abs
            * (if (s >>> i) &&& 1 = result then reg.amplitudes s else Complex.ZERO).abs))
        / reg.conditionalMass i result := by
        rw [Finset.sum_div]
        exact Finset.sum_congr rfl (fun s _ => hterm s)
    _ = 1 := by
        rw [survivors_mass reg i result]
        exact div_self hp

/-- When no prefix of the cumulative distribution ever exceeds the sample,
the collapse-search loop runs off the end of the probability list. -/
theorem findCollapse_eq_none {r : ℝ} :
    ∀ (L : List ℝ) (cum : ℝ) (idx : ℕ),
      (∀ k, k < L.length → cum + (L.take (k + 1)).sum ≤ r) →
      findCollapse r cum idx L = none := by
  intro L
  induction L with
  | nil => intro cum idx _; rfl
  | cons p rest ih =>
    intro cum idx h
    have h0 : cum + p ≤ r := by
      have := h 0 (by simp)
      simpa using this
    unfold findCollapse
    rw [if_neg (by push_neg; exact h0)]
    refine ih (cum + p) (idx + 1) (fun k hk => ?_)
    have := h (k + 1) (by simpa using Nat.succ_lt_succ hk)
    simpa [add_assoc] using this

/-- The probability list has exactly `dimension` entries. -/
theorem getAllProbabilities_length (reg : QuantumRegister) :
    reg.getAllProbabilities.length = reg.dimension := by
  unfold QuantumRegister.getAllProbabilities
  rw [List.length_map, List.length_range]

/-- The fallback branch of measureAll: when the cumulative probability never
exceeds the sample, the method returns index 0 and re-initializes the
register to the all-zero basis state. -/
theorem measureAll_fallback {reg : QuantumRegister} {r : ℝ}
    (h : ∀ k, k < reg.dimension → ((reg.getAllProbabilities).take (k + 1)).sum ≤ r) :
    reg.measureAll r = (0, { reg with amplitudes := initialAmplitudes }) := by
  unfold QuantumRegister.measureAll
  have hnone : findCollapse r 0 0 reg.getAllProbabilities = none :=
    findCollapse_eq_none reg.getAllProbabilities 0 0 (fun k hk => by
      rw [zero_add]
      exact h k (by rwa [getAllProbabilities_length reg] at hk))
  simp only [hnone]

@[simp] theorem Complex.abs_one_c : Complex.ONE.abs = 1 := by
  simp [Complex.abs, Complex.ONE]

@[simp] theorem Complex.abs_ZERO_c : Complex.ZERO.abs = 0 := by
  simp [Complex.zero_eq]

theorem X_el_00 : QuantumGates.X.el 0 0 = Complex.ZERO := rfl

theorem X_el_01 : QuantumGates.X.el 0 1 = Complex.ONE := rfl

theorem X_el_10 : QuantumGates.X.el 1 0 = Complex.ONE := rfl

theorem X_el_11 : QuantumGates.X.el 1 1 = Complex.ZERO := rfl

theorem isUnitary2_X : IsUnitary2 QuantumGates.X := by
  unfold IsUnitary2
  rw [X_el_00, X_el_01, X_el_10, X_el_11]
  norm_num [Complex.ZERO, Complex.ONE]

theorem Complex.abs_real {x : ℝ} (hx : 0 ≤ x) : (Complex.mk x 0).abs = x := by
  simp only [Complex.abs, mul_zero, add_zero]
  exact Real.sqrt_mul_self hx

/-- Claim C1 (amended): the normalization invariant holds after construction,
is preserved by applySingleQubitGate with a unitary matrix, and is restored
by measureQubit whenever the sampled outcome has nonzero conditional
probability; setAmplitude and measureAll's collapse branch are excluded
because they do not maintain it. -/
theorem claim_C1 :
    (∀ (n : ℕ) (reg : QuantumRegister), QuantumRegister.make n = Except.ok reg → reg.sumSq = 1)
    ∧ (∀ (reg reg' : QuantumRegister) (gate : QuantumMatrix) (q : ℕ),
        q < reg.numQubits → IsUnitary2 gate →
        reg.applySingleQubitGate gate q = Except.ok reg' → reg'.sumSq = reg.sumSq)
    ∧ (∀ (reg reg' : QuantumRegister) (i result : ℕ) (r : ℝ),
        i < reg.numQubits → reg.measureQubit i r = Except.ok (result, reg') →
        reg.conditionalMass i result ≠ 0 → reg'.sumSq = 1) :=
  ⟨fun _ _ h => sumSq_make h,
   fun _ _ _ _ hq hu h => sumSq_applySingleQubitGate hq hu h,
   fun _ _ _ _ _ hi hok hp => sumSq_measureQubit hi hok hp⟩

theorem make_two_eval : QuantumRegister.make 2 = Except.ok ⟨2, initialAmplitudes⟩ := by
  unfold QuantumRegister.make
  rw [if_neg (by norm_num)]

theorem make_one_eval : QuantumRegister.make 1 = Except.ok ⟨1, initialAmplitudes⟩ := by
  unfold QuantumRegister.make
  rw [if_neg (by norm_num)]

/-- Claim C1 counterexample: setAmplitude(1, 1) on a fresh 2-qubit register
(the first step of deutschAlgorithm) leaves Σ|amplitude|² = 2, and the
measureAll collapse branch on the public-API-built register |1⟩ also leaves
Σ|amplitude|² = 2 — both externally observable points. -/
theorem claim_C1_cex :
    ((QuantumRegister.make 2).bind (fun reg => reg.setAmplitude 1 Complex.ONE)).map
        QuantumRegister.sumSq = Except.ok 2
    ∧ (2 : ℝ) ≠ 1
    ∧ (((QuantumRegister.make 1).bind (fun reg => reg.setAmplitude 0 Complex.ZERO)).bind
        (fun reg => reg.setAmplitude 1 Complex.ONE)).map
          (fun reg => ((reg.measureAll (1/2)).2).sumSq) = Except.ok 2 := by
  refine ⟨?_, by norm_num, ?_⟩
  · rw [make_two_eval]
    show (((QuantumRegister.mk 2 initialAmplitudes).setAmplitude 1 Complex.ONE).map
      QuantumRegister.sumSq) = Except.ok 2
    unfold QuantumRegister.setAmplitude
    rw [if_neg (by norm_num [QuantumRegister.dimension])]
    show Except.ok (QuantumRegister.sumSq _) = Except.ok 2
    congr 1
    unfold QuantumRegister.sumSq
    show (∑ s in Finset.range 4, _) = 2
    rw [Finset.sum_range_succ, Finset.sum_range_succ, Finset.sum_range_succ,
      Finset.sum_range_succ, Finset.sum_range_zero]
    norm_num [Function.update_apply, initialAmplitudes]
  · rw [make_one_eval]
    show ((((QuantumRegister.mk 1 initialAmplitudes).setAmplitude 0 Complex.ZERO).bind
        (fun reg => reg.setAmplitude 1 Complex.ONE)).map
          (fun reg => ((reg.measureAll (1/2)).2).sumSq)) = Except.ok 2
    unfold QuantumRegister.setAmplitude
    rw [if_neg (by norm_num [QuantumRegister.dimension])]
    show ((Except.ok (QuantumRegister.mk 1 _) : Except String QuantumRegister).bind _).map _
      = Except.ok 2
    show ((QuantumRegister.mk 1
        (Function.update initialAmplitudes 0 Complex.ZERO)).setAmplitude 1 Complex.ONE).map
          (fun reg => ((reg.measureAll (1/2)).2).sumSq) = Except.ok 2
    unfold QuantumRegister.setAmplitude
    rw [if_neg (by norm_num [QuantumRegister.dimension])]
    show Except.ok (((QuantumRegister.measureAll _ (1/2)).2).sumSq) = Except.ok 2
    congr 1
    have hprobs : (QuantumRegister.mk 1 (Function.update
        (Function.update initialAmplitudes 0 Complex.ZERO) 1 Complex.ONE)).getAllProbabilities
        = [0, 1] := by
      show [QuantumRegister.getProbability _ 0, QuantumRegister.getProbability _ 1] = [0, 1]
      unfold QuantumRegister.getProbability
      norm_num [Function.update_apply, Complex.zero_eq]
    unfold QuantumRegister.measureAll
    rw [hprobs]
    have hfind : findCollapse (1/2) 0 0 [(0 : ℝ), 1] = some 1 := by
      unfold findCollapse
      rw [if_neg (by norm_num)]
      unfold findCollapse
      rw [if_pos (by norm_num)]
    simp only [hfind]
    unfold QuantumRegister.sumSq
    show (∑ s in Finset.range 2, _) = 2
    rw [Finset.sum_range_succ, Finset.sum_range_succ, Finset.sum_range_zero]
    norm_num [Function.update_apply, initialAmplitudes]

/-- Claim C1 witness: the three conjuncts applied at a fresh 1-qubit register,
the Pauli-X gate, and a qubit-0 measurement with sample 1/2. -/
theorem claim_C1_witness :
    (∃ reg : QuantumRegister, QuantumRegister.make 1 = Except.ok reg ∧ reg.sumSq = 1)
    ∧ (∃ reg' : QuantumRegister,
        (QuantumRegister.mk 1 initialAmplitudes).applySingleQubitGate QuantumGates.X 0
          = Except.ok reg'
        ∧ reg'.sumSq = (QuantumRegister.mk 1 initialAmplitudes).sumSq)
    ∧ (∃ (result : ℕ) (reg' : QuantumRegister),
        (QuantumRegister.mk 1 initialAmplitudes).measureQubit 0 (1/2)
          = Except.ok (result, reg')
        ∧ reg'.sumSq = 1) := by
  obtain ⟨h1, h2, h3⟩ := claim_C1
  refine ⟨⟨⟨1, initialAmplitudes⟩, make_one_eval, h1 1 _ make_one_eval⟩, ?_, ?_⟩
  · have happ : (QuantumRegister.mk 1 initialAmplitudes).applySingleQubitGate QuantumGates.X 0
        = Except.ok { QuantumRegister.mk 1 initialAmplitudes with amplitudes :=
            ((List.range (QuantumRegister.mk 1 initialAmplitudes).dimension).foldl
              (gateStep QuantumGates.X 0 initialAmplitudes) (fun _ => Complex.ZERO)) } := by
      unfold QuantumRegister.applySingleQubitGate
      rw [if_neg (by norm_num)]
    exact ⟨_, happ, h2 _ _ QuantumGates.X 0 (by norm_num) isUnitary2_X happ⟩
  · have hmk : ∃ p, (QuantumRegister.mk 1 initialAmplitudes).measureQubit 0 (1/2)
        = Except.ok p := by
      unfold QuantumRegister.measureQubit
      rw [if_neg (by norm_num)]
      exact ⟨_, rfl⟩
    obtain ⟨⟨result, reg'⟩, hok⟩ := hmk
    refine ⟨result, reg', hok, h3 _ _ 0 result (1/2) (by norm_num) hok ?_⟩
    obtain ⟨hres, -, -⟩ := measureQubit_inversion (by norm_num) hok
    have hprob : (∑ s in Finset.range (QuantumRegister.mk 1 initialAmplitudes).dimension,
        if (s >>> 0) &&& 1 = 0
        then (QuantumRegister.mk 1 initialAmplitudes).getProbability s else 0) = 1 := by
      show (∑ s in Finset.range 2, _) = 1
      rw [Finset.sum_range_succ, Finset.sum_range_succ, Finset.sum_range_zero]
      norm_num [QuantumRegister.getProbability, initialAmplitudes]
    rw [hprob] at hres
    rw [if_pos (by norm_num)] at hres
    subst hres
    have hmass : (QuantumRegister.mk 1 initialAmplitudes).conditionalMass 0 0 = 1 := by
      unfold QuantumRegister.conditionalMass
      show (∑ s in Finset.range 2, _) = 1
      rw [Finset.sum_range_succ, Finset.sum_range_succ, Finset.sum_range_zero]
      norm_num [initialAmplitudes]
    rw [hmass]
    norm_num

/-- Claim C3: with an in-range qubit q, applySingleQubitGate(M, q) replaces
the amplitude vector by the tensor-slot action of M: at an index with bit q
clear the new amplitude is M[0][0]·a0 + M[0][1]·a1 and at its bit-flipped
partner M[1][0]·a0 + M[1][1]·a1, where a0, a1 are the old amplitudes of the
pair; with q out of range the call fails with the qubit-index error (and, the
call being pure, the register is unchanged). -/
theorem claim_C3 (reg : QuantumRegister) (gate : QuantumMatrix) (q : ℕ) :
    (q < reg.numQubits →
      ∃ reg', reg.applySingleQubitGate gate q = Except.ok reg'
        ∧ reg'.numQubits = reg.numQubits
        ∧ ∀ t, t < reg.dimension → (t >>> q) &&& 1 = 0 →
            reg'.amplitudes t
              = (gate.el 0 0).mul (reg.amplitudes t)
                + (gate.el 0 1).mul (reg.amplitudes (t ^^^ (1 <<< q)))
            ∧ reg'.amplitudes (t ^^^ (1 <<< q))
              = (gate.el 1 0).mul (reg.amplitudes t)
                + (gate.el 1 1).mul (reg.amplitudes (t ^^^ (1 <<< q))))
    ∧ (reg.numQubits ≤ q →
        reg.applySingleQubitGate gate q
          = Except.error "Номер кубита должен быть от 0 до numQubits-1") := by
  constructor
  · intro hq
    have happ : reg.applySingleQubitGate gate q
        = Except.ok { reg with amplitudes :=
            ((List.range reg.dimension).foldl (gateStep gate q reg.amplitudes)
              (fun _ => Complex.ZERO)) } := by
      unfold QuantumRegister.applySingleQubitGate
      rw [if_neg (by omega)]
    refine ⟨_, happ, rfl, fun t ht hb => ?_⟩
    have htm : t ^^^ (1 <<< q) < reg.dimension := xor_flip_lt ht hq
    have hbm : ((t ^^^ (1 <<< q)) >>> q) &&& 1 = 1 := by rw [bit_xor_flip, hb]
    constructor
    · rw [applySingleQubitGate_amp hq happ t, if_pos ht, if_pos hb]
    · rw [applySingleQubitGate_amp hq happ (t ^^^ (1 <<< q)), if_pos htm,
        if_neg (by rw [hbm]; norm_num), xor_flip_invol]
  · intro hq
    unfold QuantumRegister.applySingleQubitGate
    rw [if_pos (by omega)]

/-- Claim C3 witness: the Pauli-X gate on qubit 0 of a fresh 1-qubit
register, and the out-of-range error at qubit 1. -/
theorem claim_C3_witness :
    (∃ reg', (QuantumRegister.mk 1 initialAmplitudes).applySingleQubitGate QuantumGates.X 0
        = Except.ok reg'
      ∧ reg'.numQubits = 1
      ∧ ∀ t, t < 2 → (t >>> 0) &&& 1 = 0 →
          reg'.amplitudes t
            = (QuantumGates.X.el 0 0).mul (initialAmplitudes t)
              + (QuantumGates.X.el 0 1).mul (initialAmplitudes (t ^^^ 1))
          ∧ reg'.amplitudes (t ^^^ 1)
            = (QuantumGates.X.el 1 0).mul (initialAmplitudes t)
              + (QuantumGates.X.el 1 1).mul (initialAmplitudes (t ^^^ 1)))
    ∧ (QuantumRegister.mk 1 initialAmplitudes).applySingleQubitGate QuantumGates.X 1
        = Except.error "Номер кубита должен быть от 0 до numQubits-1" :=
  ⟨(claim_C3 (QuantumRegister.mk 1 initialAmplitudes) QuantumGates.X 0).1 (by norm_num),
   (claim_C3 (QuantumRegister.mk 1 initialAmplitudes) QuantumGates.X 1).2 (by norm_num)⟩

/-- Claim C4: when measureQubit returns an outcome of nonzero conditional
probability p, every amplitude whose bit i matches the outcome ends as the
old amplitude divided componentwise by √p, and every other amplitude ends as
zero. -/
theorem claim_C4 {reg reg' : QuantumRegister} {i result : ℕ} {r : ℝ}
    (hi : i < reg.numQubits)
    (hok : reg.measureQubit i r = Except.ok (result, reg'))
    (hp : reg.conditionalMass i result ≠ 0) :
    ∀ s, s < reg.dimension →
      ((s >>> i) &&& 1 = result →
        reg'.amplitudes s
          = ⟨(reg.amplitudes s).re / Real.sqrt (reg.conditionalMass i result),
             (reg.amplitudes s).im / Real.sqrt (reg.conditionalMass i result)⟩)
      ∧ ((s >>> i) &&& 1 ≠ result → reg'.amplitudes s = Complex.ZERO) :=
  fun s _ => measureQubit_collapse_amp hi hok hp s

/-- Claim C4 witness: measuring qubit 0 of a fresh 1-qubit register with
sample 1/2 yields outcome 0 and normalized survivor amplitudes. -/
theorem claim_C4_witness :
    ∃ reg', (QuantumRegister.mk 1 initialAmplitudes).measureQubit 0 (1/2)
        = Except.ok (0, reg')
      ∧ reg'.amplitudes 0
          = ⟨(initialAmplitudes 0).re
              / Real.sqrt ((QuantumRegister.mk 1 initialAmplitudes).conditionalMass 0 0),
             (initialAmplitudes 0).im
              / Real.sqrt ((QuantumRegister.mk 1 initialAmplitudes).conditionalMass 0 0)⟩
      ∧ reg'.amplitudes 1 = Complex.ZERO := by
  have hmk : ∃ p, (QuantumRegister.mk 1 initialAmplitudes).measureQubit 0 (1/2)
      = Except.ok p := by
    unfold QuantumRegister.measureQubit
    rw [if_neg (by norm_num)]
    exact ⟨_, rfl⟩
  obtain ⟨⟨result, reg'⟩, hok⟩ := hmk
  obtain ⟨hres, -, -⟩ := measureQubit_inversion (by norm_num) hok
  have hprob : (∑ s in Finset.range (QuantumRegister.mk 1 initialAmplitudes).dimension,
      if (s >>> 0) &&& 1 = 0
      then (QuantumRegister.mk 1 initialAmplitudes).getProbability s else 0) = 1 := by
    show (∑ s in Finset.range 2, _) = 1
    rw [Finset.sum_range_succ, Finset.sum_range_succ, Finset.sum_range_zero]
    norm_num [QuantumRegister.getProbability, initialAmplitudes]
  rw [hprob, if_pos (by norm_num)] at hres
  subst hres
  have hmass : (QuantumRegister.mk 1 initialAmplitudes).conditionalMass 0 0 = 1 := by
    unfold QuantumRegister.conditionalMass
    show (∑ s in Finset.range 2, _) = 1
    rw [Finset.sum_range_succ, Finset.sum_range_succ, Finset.sum_range_zero]
    norm_num [initialAmplitudes]
  refine ⟨reg', hok, ?_, ?_⟩
  · exact (claim_C4 (by norm_num) hok (by rw [hmass]; norm_num) 0
      (by norm_num [QuantumRegister.dimension])).1 (by norm_num)
  · exact (claim_C4 (by norm_num) hok (by rw [hmass]; norm_num) 1
      (by norm_num [QuantumRegister.dimension])).2 (by norm_num)

/-- Claim C5 (amended): when the conditional probability of the sampled
outcome is exactly zero, measureQubit skips the renormalization and leaves
every in-range amplitude zero — it does not reset the register to the
all-zero basis state. -/
theorem claim_C5 {reg reg' : QuantumRegister} {i result : ℕ} {r : ℝ}
    (hi : i < reg.numQubits)
    (hok : reg.measureQubit i r = Except.ok (result, reg'))
    (hp : reg.conditionalMass i result = 0) :
    ∀ s, s < reg.dimension → reg'.amplitudes s = Complex.ZERO :=
  fun s hs => measureQubit_zero_amp hi hok hp s hs

/-- Claim C5 counterexample: measuring qubit 0 of the zeroed-out 1-qubit
register samples an outcome of zero probability; the register does not end
in |0…0⟩ (its index-0 amplitude is 0, not 1). -/
theorem claim_C5_cex :
    (((QuantumRegister.make 1).bind (fun reg => reg.setAmplitude 0 Complex.ZERO)).bind
        (fun reg => reg.measureQubit 0 (1/2))).map
          (fun p => (p.2.amplitudes 0).re) = Except.ok 0
    ∧ (0 : ℝ) ≠ 1 := by
  refine ⟨?_, by norm_num⟩
  rw [make_one_eval]
  show ((((QuantumRegister.mk 1 initialAmplitudes).setAmplitude 0 Complex.ZERO).bind
      (fun reg => reg.measureQubit 0 (1/2))).map
        (fun p => (p.2.amplitudes 0).re)) = Except.ok 0
  unfold QuantumRegister.setAmplitude
  rw [if_neg (by norm_num [QuantumRegister.dimension])]
  show (((QuantumRegister.mk 1 (Function.update initialAmplitudes 0 Complex.ZERO)).measureQubit
      0 (1/2)).map (fun p => (p.2.amplitudes 0).re)) = Except.ok 0
  have hmk : ∃ p, (QuantumRegister.mk 1
      (Function.update initialAmplitudes 0 Complex.ZERO)).measureQubit 0 (1/2)
      = Except.ok p := by
    unfold QuantumRegister.measureQubit
    rw [if_neg (by norm_num)]
    exact ⟨_, rfl⟩
  obtain ⟨⟨result, reg'⟩, hok⟩ := hmk
  obtain ⟨hres, -, -⟩ := measureQubit_inversion (by norm_num) hok
  have hprob : (∑ s in Finset.range (QuantumRegister.mk 1
      (Function.update initialAmplitudes 0 Complex.ZERO)).dimension,
      if (s >>> 0) &&& 1 = 0
      then (QuantumRegister.mk 1
        (Function.update initialAmplitudes 0 Complex.ZERO)).getProbability s else 0) = 0 := by
    show (∑ s in Finset.range 2, _) = 0
    rw [Finset.sum_range_succ, Finset.sum_range_succ, Finset.sum_range_zero]
    norm_num [QuantumRegister.getProbability, initialAmplitudes, Function.update_apply]
  rw [hprob, if_neg (by norm_num)] at hres
  subst hres
  have hmass : (QuantumRegister.mk 1
      (Function.update initialAmplitudes 0 Complex.ZERO)).conditionalMass 0 1 = 0 := by
    unfold QuantumRegister.conditionalMass
    show (∑ s in Finset.range 2, _) = 0
    rw [Finset.sum_range_succ, Finset.sum_range_succ, Finset.sum_range_zero]
    norm_num [initialAmplitudes, Function.update_apply]
  rw [hok]
  show Except.ok ((reg'.amplitudes 0).re) = Except.ok 0
  congr 1
  rw [measureQubit_zero_amp (by norm_num) hok hmass 0 (by norm_num [QuantumRegister.dimension])]
  rfl

/-- Claim C5 witness: the amended statement applied to the zeroed 1-qubit
register, whose sampled outcome has zero mass. -/
theorem claim_C5_witness :
    ∃ (result : ℕ) (reg' : QuantumRegister),
      (QuantumRegister.mk 1 (Function.update initialAmplitudes 0 Complex.ZERO)).measureQubit
        0 (1/2) = Except.ok (result, reg')
      ∧ reg'.amplitudes 0 = Complex.ZERO ∧ reg'.amplitudes 1 = Complex.ZERO := by
  have hmk : ∃ p, (QuantumRegister.mk 1
      (Function.update initialAmplitudes 0 Complex.ZERO)).measureQubit 0 (1/2)
      = Except.ok p := by
    unfold QuantumRegister.measureQubit
    rw [if_neg (by norm_num)]
    exact ⟨_, rfl⟩
  obtain ⟨⟨result, reg'⟩, hok⟩ := hmk
  have hmass : ∀ outcome, (QuantumRegister.mk 1
      (Function.update initialAmplitudes 0 Complex.ZERO)).conditionalMass 0 outcome = 0 := by
    intro outcome
    unfold QuantumRegister.conditionalMass
    show (∑ s in Finset.range 2, _) = 0
    rw [Finset.sum_range_succ, Finset.sum_range_succ, Finset.sum_range_zero]
    have h0 : (Function.update initialAmplitudes 0 Complex.ZERO) 0 = Complex.ZERO := by
      simp [Function.update_apply]
    have h1 : (Function.update initialAmplitudes 0 Complex.ZERO) 1 = Complex.ZERO := by
      simp [Function.update_apply, initialAmplitudes]
    split <;> split <;> simp [h0, h1, initialAmplitudes]
  exact ⟨result, reg', hok,
    claim_C5 (by norm_num) hok (hmass result) 0 (by norm_num [QuantumRegister.dimension]),
    claim_C5 (by norm_num) hok (hmass result) 1 (by norm_num [QuantumRegister.dimension])⟩

/-- Claim C6 (amended): when the cumulative probability never exceeds the
drawn sample, measureAll falls back to returning index 0 (not the last
index) and re-initializes the register to |0…0⟩ rather than failing. -/
theorem claim_C6 {reg : QuantumRegister} {r : ℝ}
    (h : ∀ k, k < reg.dimension → ((reg.getAllProbabilities).take (k + 1)).sum ≤ r) :
    reg.measureAll r = (0, { reg with amplitudes := initialAmplitudes }) :=
  measureAll_fallback h

/-- Claim C6 counterexample: on the zeroed 1-qubit register the loop never
fires and measureAll returns 0, not the last index `2^1 - 1 = 1`. -/
theorem claim_C6_cex :
    ((QuantumRegister.make 1).bind (fun reg => reg.setAmplitude 0 Complex.ZERO)).map
        (fun reg => (reg.measureAll (1/2)).1) = Except.ok 0
    ∧ (0 : ℕ) ≠ 2 ^ 1 - 1 := by
  refine ⟨?_, by norm_num⟩
  rw [make_one_eval]
  show (((QuantumRegister.mk 1 initialAmplitudes).setAmplitude 0 Complex.ZERO).map
      (fun reg => (reg.measureAll (1/2)).1)) = Except.ok 0
  unfold QuantumRegister.setAmplitude
  rw [if_neg (by norm_num [QuantumRegister.dimension])]
  show Except.ok (((QuantumRegister.mk 1
    (Function.update initialAmplitudes 0 Complex.ZERO)).measureAll (1/2)).1) = Except.ok 0
  congr 1
  rw [measureAll_fallback (fun k hk => ?_)]
  have hprobs : (QuantumRegister.mk 1
      (Function.update initialAmplitudes 0 Complex.ZERO)).getAllProbabilities = [0, 0] := by
    show [QuantumRegister.getProbability _ 0, QuantumRegister.getProbability _ 1] = [0, 0]
    unfold QuantumRegister.getProbability
    norm_num [Function.update_apply, initialAmplitudes]
  rw [hprobs]
  have htake : ∀ m, (List.take m [(0 : ℝ), 0]).sum = 0 := by
    intro m
    match m with
    | 0 => rfl
    | 1 => norm_num
    | Nat.succ (Nat.succ k) => simp [List.take]
  rw [htake]
  norm_num

/-- Claim C6 witness: the amended fallback applied to the zeroed
1-qubit register with sample 1/2. -/
theorem claim_C6_witness :
    (QuantumRegister.mk 1 (Function.update initialAmplitudes 0 Complex.ZERO)).measureAll (1/2)
      = (0, QuantumRegister.mk 1 initialAmplitudes) := by
  have hprobs : (QuantumRegister.mk 1
      (Function.update initialAmplitudes 0 Complex.ZERO)).getAllProbabilities = [0, 0] := by
    show [QuantumRegister.getProbability _ 0, QuantumRegister.getProbability _ 1] = [0, 0]
    unfold QuantumRegister.getProbability
    norm_num [Function.update_apply, initialAmplitudes]
  have := @claim_C6 (QuantumRegister.mk 1
      (Function.update initialAmplitudes 0 Complex.ZERO)) (1/2) (fun k hk => by
    rw [hprobs]
    have htake : ∀ m, (List.take m [(0 : ℝ), 0]).sum = 0 := by
      intro m
      match m with
      | 0 => rfl
      | 1 => norm_num
      | Nat.succ (Nat.succ k) => simp [List.take]
    rw [htake]
    norm_num)
  exact this

/-- Claim C7 (amended): a.mul(b).div(b) succeeds and returns exactly a (hence
is approximately equal to a) whenever `b.re² + b.im² ≥ 1e-15`, i.e. whenever
|b| ≥ 10^(-7.5) — not already whenever |b| > 1e-10 as claimed. -/
theorem claim_C7 (a b : Complex) (h : 1 / 10 ^ 15 ≤ b.re * b.re + b.im * b.im) :
    ∃ c, (a.mul b).div b = Except.ok c ∧ c.equals a (1 / 10 ^ 10) := by
  have hpos : (0 : ℝ) < b.re * b.re + b.im * b.im := lt_of_lt_of_le (by norm_num) h
  have hden : b.re * b.re + b.im * b.im ≠ 0 := ne_of_gt hpos
  refine ⟨a, ?_, ?_⟩
  · unfold Complex.div
    rw [if_neg (by rw [abs_of_nonneg (le_of_lt hpos)]; push_neg; exact h)]
    congr 1
    refine Complex.ext ?_ ?_
    · show ((a.mul b).re * b.re + (a.mul b).im * b.im) / (b.re * b.re + b.im * b.im) = a.re
      rw [div_eq_iff hden, Complex.mul_re, Complex.mul_im]
      ring
    · show ((a.mul b).im * b.re - (a.mul b).re * b.im) / (b.re * b.re + b.im * b.im) = a.im
      rw [div_eq_iff hden, Complex.mul_re, Complex.mul_im]
      ring
  · unfold Complex.equals
    norm_num

/-- Claim C7 counterexample: b = 1e-8 has |b| > 1e-10, yet
a.mul(b).div(b) raises the division-by-zero error because
|b|² = 1e-16 < 1e-15. -/
theorem claim_C7_cex :
    (Complex.mk (1 / 10 ^ 8) 0).abs > 1 / 10 ^ 10
    ∧ (Complex.ONE.mul (Complex.mk (1 / 10 ^ 8) 0)).div (Complex.mk (1 / 10 ^ 8) 0)
        = Except.error "Деление на ноль в комплексных числах" := by
  constructor
  · rw [Complex.abs_real (by norm_num)]
    norm_num
  · unfold Complex.div
    rw [if_pos (by rw [abs_of_nonneg (by norm_num)]; norm_num)]

/-- Claim C7 witness: the amended statement at a = 2+3i, b = 1+i. -/
theorem claim_C7_witness :
    (1 : ℝ) / 10 ^ 15 ≤ (Complex.mk 1 1).re * (Complex.mk 1 1).re
        + (Complex.mk 1 1).im * (Complex.mk 1 1).im
    ∧ ∃ c, ((Complex.mk 2 3).mul (Complex.mk 1 1)).div (Complex.mk 1 1) = Except.ok c
        ∧ c.equals (Complex.mk 2 3) (1 / 10 ^ 10) :=
  ⟨by norm_num, claim_C7 (Complex.mk 2 3) (Complex.mk 1 1) (by norm_num)⟩

/-- Claim C8 (code evaluation at the failing input): createWState(2) leaves
amplitude 1 (not 0) at basis index 0, because the constructor's |00…0⟩
amplitude is never cleared; the claim's closed form requires 0 there. -/
theorem claim_C8 :
    (QuantumRegister.createWState 2).map (fun reg => reg.amplitudes 0)
      = Except.ok Complex.ONE
    ∧ Complex.ONE ≠ Complex.ZERO := by
  constructor
  · have hset1 : ∀ (c : Complex) (f : ℕ → Complex),
        (QuantumRegister.mk 2 f).setAmplitude (1 <<< (2 - 1 - 0)) c
          = Except.ok (QuantumRegister.mk 2 (Function.update f (1 <<< (2 - 1 - 0)) c)) := by
      intro c f
      unfold QuantumRegister.setAmplitude
      rw [if_neg (by
        rw [show (QuantumRegister.mk 2 f).dimension = 4 from rfl,
          show (1 : ℕ) <<< (2 - 1 - 0) = 2 from rfl]
        norm_num)]
    have hset2 : ∀ (c : Complex) (f : ℕ → Complex),
        (QuantumRegister.mk 2 f).setAmplitude (1 <<< (2 - 1 - 1)) c
          = Except.ok (QuantumRegister.mk 2 (Function.update f (1 <<< (2 - 1 - 1)) c)) := by
      intro c f
      unfold QuantumRegister.setAmplitude
      rw [if_neg (by
        rw [show (QuantumRegister.mk 2 f).dimension = 4 from rfl,
          show (1 : ℕ) <<< (2 - 1 - 1) = 1 from rfl]
        norm_num)]
    unfold QuantumRegister.createWState
    rw [make_two_eval]
    rw [okBind]
    rw [show List.range 2 = [0, 1] from rfl]
    simp only [List.foldlM_cons, List.foldlM_nil, hset1, hset2, okBind]
    show Except.map _ (Except.ok _) = _
    rw [okMap]
    congr 1
  · intro h
    have := congrArg Complex.re h
    simp [Complex.ONE, Complex.ZERO] at this

theorem QuantumRegister.ext_eq {r1 r2 : QuantumRegister} (hn : r1.numQubits = r2.numQubits)
    (ha : r1.amplitudes = r2.amplitudes) : r1 = r2 := by
  cases r1; cases r2; simp_all

/-- An explicit 4-entry amplitude vector for a 2-qubit register. -/
def fourAmps (a0 a1 a2 a3 : Complex) : ℕ → Complex :=
  fun t => if t = 0 then a0 else if t = 1 then a1 else if t = 2 then a2
    else if t = 3 then a3 else Complex.ZERO

theorem fourAmps_congr {a0 a1 a2 a3 b0 b1 b2 b3 : Complex}
    (h0 : a0 = b0) (h1 : a1 = b1) (h2 : a2 = b2) (h3 : a3 = b3) :
    fourAmps a0 a1 a2 a3 = fourAmps b0 b1 b2 b3 := by
  rw [h0, h1, h2, h3]

theorem initial_eq_fourAmps :
    initialAmplitudes = fourAmps Complex.ONE Complex.ZERO Complex.ZERO Complex.ZERO := by
  funext t
  unfold initialAmplitudes fourAmps
  split_ifs <;> rfl

theorem update1_fourAmps (a0 a1 a2 a3 c : Complex) :
    Function.update (fourAmps a0 a1 a2 a3) 1 c = fourAmps a0 c a2 a3 := by
  funext t
  rw [Function.update_apply]
  unfold fourAmps
  split_ifs <;> simp_all

theorem update0_fourAmps (a0 a1 a2 a3 c : Complex) :
    Function.update (fourAmps a0 a1 a2 a3) 0 c = fourAmps c a1 a2 a3 := by
  funext t
  rw [Function.update_apply]
  unfold fourAmps
  split_ifs <;> simp_all

theorem setAmplitude_mk2 (g : ℕ → Complex) (i : ℕ) (hi : i < 4) (c : Complex) :
    (QuantumRegister.mk 2 g).setAmplitude i c
      = Except.ok (QuantumRegister.mk 2 (Function.update g i c)) := by
  unfold QuantumRegister.setAmplitude
  rw [if_neg (by
    show ¬ i ≥ (QuantumRegister.mk 2 g).dimension
    rw [show (QuantumRegister.mk 2 g).dimension = 4 from rfl]
    omega)]

theorem getAmplitude_mk2 (g : ℕ → Complex) (i : ℕ) (hi : i < 4) :
    (QuantumRegister.mk 2 g).getAmplitude i = Except.ok (g i) := by
  unfold QuantumRegister.getAmplitude
  rw [if_neg (by
    show ¬ i ≥ (QuantumRegister.mk 2 g).dimension
    rw [show (QuantumRegister.mk 2 g).dimension = 4 from rfl]
    omega)]

theorem mapM_getAmplitude_mk2 (g : ℕ → Complex) :
    (List.range (QuantumRegister.mk 2 g).dimension).mapM
        (QuantumRegister.mk 2 g).getAmplitude
      = Except.ok [g 0, g 1, g 2, g 3] := by
  rw [show List.range (QuantumRegister.mk 2 g).dimension = [0, 1, 2, 3] from rfl]
  simp only [List.mapM_cons, List.mapM_nil,
    getAmplitude_mk2 g 0 (by norm_num), getAmplitude_mk2 g 1 (by norm_num),
    getAmplitude_mk2 g 2 (by norm_num), getAmplitude_mk2 g 3 (by norm_num), okBind]
  rfl

theorem setAll_fourAmps (f : ℕ → Complex) (hf : ∀ t, 4 ≤ t → f t = Complex.ZERO)
    (b0 b1 b2 b3 : Complex) :
    setAllAmplitudes (QuantumRegister.mk 2 f) [b0, b1, b2, b3]
      = Except.ok (QuantumRegister.mk 2 (fourAmps b0 b1 b2 b3)) := by
  unfold setAllAmplitudes
  rw [show List.range (QuantumRegister.mk 2 f).dimension = [0, 1, 2, 3] from rfl]
  simp only [List.foldlM_cons, List.foldlM_nil]
  rw [setAmplitude_mk2 _ 0 (by norm_num) _, okBind,
    setAmplitude_mk2 _ 1 (by norm_num) _, okBind,
    setAmplitude_mk2 _ 2 (by norm_num) _, okBind,
    setAmplitude_mk2 _ 3 (by norm_num) _, okBind]
  show Except.ok _ = _
  congr 1
  congr 1
  funext t
  by_cases h0 : t = 0
  · subst h0; rfl
  by_cases h1 : t = 1
  · subst h1; rfl
  by_cases h2 : t = 2
  · subst h2; rfl
  by_cases h3 : t = 3
  · subst h3; rfl
  · have h4 : 4 ≤ t := by omega
    simp [Function.update_apply, h0, h1, h2, h3, fourAmps, hf t h4]

theorem fourAmps_zero_tail (a0 a1 a2 a3 : Complex) :
    ∀ t, 4 ≤ t → fourAmps a0 a1 a2 a3 t = Complex.ZERO := by
  intro t ht
  unfold fourAmps
  rw [if_neg (by omega), if_neg (by omega), if_neg (by omega), if_neg (by omega)]

/-- applySingleQubitGate on qubit 0 of an explicit 2-qubit register: the
matrix acts on the pairs (0,1) and (2,3). -/
theorem applyGate_q0_fourAmps (g : QuantumMatrix) (a0 a1 a2 a3 : Complex) :
    (QuantumRegister.mk 2 (fourAmps a0 a1 a2 a3)).applySingleQubitGate g 0
      = Except.ok (QuantumRegister.mk 2 (fourAmps
          ((g.el 0 0).mul a0 + (g.el 0 1).mul a1)
          ((g.el 1 0).mul a0 + (g.el 1 1).mul a1)
          ((g.el 0 0).mul a2 + (g.el 0 1).mul a3)
          ((g.el 1 0).mul a2 + (g.el 1 1).mul a3))) := by
  have happ : (QuantumRegister.mk 2 (fourAmps a0 a1 a2 a3)).applySingleQubitGate g 0
      = Except.ok { QuantumRegister.mk 2 (fourAmps a0 a1 a2 a3) with amplitudes :=
          ((List.range (QuantumRegister.mk 2 (fourAmps a0 a1 a2 a3)).dimension).foldl
            (gateStep g 0 (fourAmps a0 a1 a2 a3)) (fun _ => Complex.ZERO)) } := by
    unfold QuantumRegister.applySingleQubitGate
    rw [if_neg (by norm_num)]
  rw [happ]
  congr 1
  refine QuantumRegister.ext_eq rfl ?_
  funext t
  have hamp := @applySingleQubitGate_amp (QuantumRegister.mk 2 (fourAmps a0 a1 a2 a3)) _
    g 0 (by norm_num) happ t
  rw [hamp]
  by_cases h0 : t = 0
  · subst h0; rfl
  by_cases h1 : t = 1
  · subst h1; rfl
  by_cases h2 : t = 2
  · subst h2; rfl
  by_cases h3 : t = 3
  · subst h3; rfl
  · rw [if_neg (by
      show ¬ t < (QuantumRegister.mk 2 (fourAmps a0 a1 a2 a3)).dimension
      rw [show (QuantumRegister.mk 2 (fourAmps a0 a1 a2 a3)).dimension = 4 from rfl]
      omega)]
    exact (fourAmps_zero_tail _ _ _ _ t (by omega)).symm

/-- applySingleQubitGate on qubit 1 of an explicit 2-qubit register: the
matrix acts on the pairs (0,2) and (1,3). -/
theorem applyGate_q1_fourAmps (g : QuantumMatrix) (a0 a1 a2 a3 : Complex) :
    (QuantumRegister.mk 2 (fourAmps a0 a1 a2 a3)).applySingleQubitGate g 1
      = Except.ok (QuantumRegister.mk 2 (fourAmps
          ((g.el 0 0).mul a0 + (g.el 0 1).mul a2)
          ((g.el 0 0).mul a1 + (g.el 0 1).mul a3)
          ((g.el 1 0).mul a0 + (g.el 1 1).mul a2)
          ((g.el 1 0).mul a1 + (g.el 1 1).mul a3))) := by
  have happ : (QuantumRegister.mk 2 (fourAmps a0 a1 a2 a3)).applySingleQubitGate g 1
      = Except.ok { QuantumRegister.mk 2 (fourAmps a0 a1 a2 a3) with amplitudes :=
          ((List.range (QuantumRegister.mk 2 (fourAmps a0 a1 a2 a3)).dimension).foldl
            (gateStep g 1 (fourAmps a0 a1 a2 a3)) (fun _ => Complex.ZERO)) } := by
    unfold QuantumRegister.applySingleQubitGate
    rw [if_neg (by norm_num)]
  rw [happ]
  congr 1
  refine QuantumRegister.ext_eq rfl ?_
  funext t
  have hamp := @applySingleQubitGate_amp (QuantumRegister.mk 2 (fourAmps a0 a1 a2 a3)) _
    g 1 (by norm_num) happ t
  rw [hamp]
  by_cases h0 : t = 0
  · subst h0; rfl
  by_cases h1 : t = 1
  · subst h1; rfl
  by_cases h2 : t = 2
  · subst h2; rfl
  by_cases h3 : t = 3
  · subst h3; rfl
  · rw [if_neg (by
      show ¬ t < (QuantumRegister.mk 2 (fourAmps a0 a1 a2 a3)).dimension
      rw [show (QuantumRegister.mk 2 (fourAmps a0 a1 a2 a3)).dimension = 4 from rfl]
      omega)]
    exact (fourAmps_zero_tail _ _ _ _ t (by omega)).symm

theorem sq2 : Real.sqrt 2 * Real.sqrt 2 = 2 := Real.mul_self_sqrt (by norm_num)

theorem sqrt2_ne : Real.sqrt 2 ≠ 0 := by
  have : (0 : ℝ) < Real.sqrt 2 := Real.sqrt_pos.mpr (by norm_num)
  exact ne_of_gt this

theorem H_el_00 : QuantumGates.H.el 0 0 = ⟨1 / Real.sqrt 2, 0⟩ := rfl

theorem H_el_01 : QuantumGates.H.el 0 1 = ⟨1 / Real.sqrt 2, 0⟩ := rfl

theorem H_el_10 : QuantumGates.H.el 1 0 = ⟨1 / Real.sqrt 2, 0⟩ := rfl

theorem H_el_11 : QuantumGates.H.el 1 1 = ⟨-(1 / Real.sqrt 2), 0⟩ := rfl

/-- QuantumMatrix.apply on a 4x4 matrix and a length-4 vector, row by row. -/
theorem apply_four (m : QuantumMatrix) (hr : m.rows = 4) (hc : m.cols = 4)
    (v0 v1 v2 v3 : Complex) :
    m.apply [v0, v1, v2, v3] = Except.ok
      [(m.el 0 0).mul v0 + (m.el 0 1).mul v1 + (m.el 0 2).mul v2 + (m.el 0 3).mul v3,
       (m.el 1 0).mul v0 + (m.el 1 1).mul v1 + (m.el 1 2).mul v2 + (m.el 1 3).mul v3,
       (m.el 2 0).mul v0 + (m.el 2 1).mul v1 + (m.el 2 2).mul v2 + (m.el 2 3).mul v3,
       (m.el 3 0).mul v0 + (m.el 3 1).mul v1 + (m.el 3 2).mul v2 + (m.el 3 3).mul v3] := by
  unfold QuantumMatrix.apply
  rw [if_neg (by rw [hc]; simp)]
  rw [hr, hc]
  rw [show List.range 4 = [0, 1, 2, 3] from rfl]
  simp only [List.map_cons, List.map_nil, List.foldl_cons, List.foldl_nil]
  rw [show [v0, v1, v2, v3].getD 0 Complex.ZERO = v0 from rfl,
    show [v0, v1, v2, v3].getD 1 Complex.ZERO = v1 from rfl,
    show [v0, v1, v2, v3].getD 2 Complex.ZERO = v2 from rfl,
    show [v0, v1, v2, v3].getD 3 Complex.ZERO = v3 from rfl]
  simp only [Complex.add_eq, Complex.zero_eq, zero_add]

theorem CNOT_apply_four (v0 v1 v2 v3 : Complex) :
    QuantumGates.CNOT.apply [v0, v1, v2, v3] = Except.ok [v0, v1, v3, v2] := by
  rw [apply_four QuantumGates.CNOT rfl rfl]
  congr 1
  show [Complex.ONE.mul v0 + Complex.ZERO.mul v1 + Complex.ZERO.mul v2 + Complex.ZERO.mul v3,
        Complex.ZERO.mul v0 + Complex.ONE.mul v1 + Complex.ZERO.mul v2 + Complex.ZERO.mul v3,
        Complex.ZERO.mul v0 + Complex.ZERO.mul v1 + Complex.ZERO.mul v2 + Complex.ONE.mul v3,
        Complex.ZERO.mul v0 + Complex.ZERO.mul v1 + Complex.ONE.mul v2 + Complex.ZERO.mul v3]
      = [v0, v1, v3, v2]
  simp

/-- The oracle application for 'balanced-identity': the CNOT matrix applied
to the raw amplitude vector swaps the amplitudes of indices 2 and 3. -/
theorem applyDeutschOracle_balanced_identity (a0 a1 a2 a3 : Complex) :
    applyDeutschOracle (QuantumRegister.mk 2 (fourAmps a0 a1 a2 a3)) "balanced-identity"
      = Except.ok (QuantumRegister.mk 2 (fourAmps a0 a1 a3 a2)) := by
  unfold applyDeutschOracle
  rw [if_neg (show ¬(("balanced-identity" : String) = "constant-0") by decide),
    if_neg (show ¬(("balanced-identity" : String) = "constant-1") by decide),
    if_pos (show (("balanced-identity" : String) = "balanced-identity") from rfl),
    if_neg (show ¬(("balanced-identity" : String) = "balanced-not") by decide)]
  rw [okBind]
  simp only []
  rw [if_pos (show (("balanced-identity" : String) ≠ "balanced-not") by decide)]
  rw [mapM_getAmplitude_mk2]
  rw [okBind]
  rw [show (fourAmps a0 a1 a2 a3) 0 = a0 from rfl,
    show (fourAmps a0 a1 a2 a3) 1 = a1 from rfl,
    show (fourAmps a0 a1 a2 a3) 2 = a2 from rfl,
    show (fourAmps a0 a1 a2 a3) 3 = a3 from rfl]
  rw [CNOT_apply_four]
  rw [okBind]
  exact setAll_fourAmps _ (fourAmps_zero_tail a0 a1 a2 a3) a0 a1 a3 a2

theorem half_ss : (1 / Real.sqrt 2) * (1 / Real.sqrt 2) = 1 / 2 := by
  rw [div_mul_div_comm, one_mul, sq2]

/-- Claim C2 (code evaluation at the failing input): on every run,
deutschAlgorithm('balanced-identity') measures 0 and resolves the
interpretation to "константная" (constant), with its own isCorrect flag
false — the claim (and the repository's own test) expects "сбалансированная"
(balanced).  The root causes: step 1 sets amplitude 1 without clearing
amplitude 0 (the register starts at |00⟩+|01⟩ instead of |01⟩), so the
phase-kickback |−⟩ component is destroyed by the first Hadamard. -/
theorem claim_C2 (r : ℝ) (h0r : 0 ≤ r) (hr1 : r < 1) :
    ∃ res, deutschAlgorithm "balanced-identity" r = Except.ok res
      ∧ res.interp = "константная"
      ∧ res.interp ≠ "сбалансированная"
      ∧ res.measurementResult = 0
      ∧ res.isCorrect = false := by
  unfold deutschAlgorithm
  rw [make_two_eval, okBind, initial_eq_fourAmps]
  rw [setAmplitude_mk2 _ 1 (by norm_num) _, okBind, update1_fourAmps]
  rw [applyGate_q0_fourAmps, okBind]
  have hB : fourAmps
      ((QuantumGates.H.el 0 0).mul Complex.ONE + (QuantumGates.H.el 0 1).mul Complex.ONE)
      ((QuantumGates.H.el 1 0).mul Complex.ONE + (QuantumGates.H.el 1 1).mul Complex.ONE)
      ((QuantumGates.H.el 0 0).mul Complex.ZERO + (QuantumGates.H.el 0 1).mul Complex.ZERO)
      ((QuantumGates.H.el 1 0).mul Complex.ZERO + (QuantumGates.H.el 1 1).mul Complex.ZERO)
      = fourAmps ⟨Real.sqrt 2, 0⟩ Complex.ZERO Complex.ZERO Complex.ZERO := by
    rw [H_el_00, H_el_01, H_el_10, H_el_11]
    refine fourAmps_congr ?_ ?_ ?_ ?_
    · refine Complex.ext ?_ ?_ <;> simp [Complex.ONE]
      field_simp
      linarith [sq2]
    · refine Complex.ext ?_ ?_ <;> simp [Complex.ONE, Complex.ZERO]
    · refine Complex.ext ?_ ?_ <;> simp [Complex.ZERO]
    · refine Complex.ext ?_ ?_ <;> simp [Complex.ZERO]
  rw [hB]
  rw [applyGate_q1_fourAmps, okBind]
  have hC : fourAmps
      ((QuantumGates.H.el 0 0).mul ⟨Real.sqrt 2, 0⟩ + (QuantumGates.H.el 0 1).mul Complex.ZERO)
      ((QuantumGates.H.el 0 0).mul Complex.ZERO + (QuantumGates.H.el 0 1).mul Complex.ZERO)
      ((QuantumGates.H.el 1 0).mul ⟨Real.sqrt 2, 0⟩ + (QuantumGates.H.el 1 1).mul Complex.ZERO)
      ((QuantumGates.H.el 1 0).mul Complex.ZERO + (QuantumGates.H.el 1 1).mul Complex.ZERO)
      = fourAmps Complex.ONE Complex.ZERO Complex.ONE Complex.ZERO := by
    rw [H_el_00, H_el_01, H_el_10, H_el_11]
    refine fourAmps_congr ?_ ?_ ?_ ?_
    · refine Complex.ext ?_ ?_ <;> simp [Complex.ONE, Complex.ZERO]
    · refine Complex.ext ?_ ?_ <;> simp [Complex.ZERO]
    · refine Complex.ext ?_ ?_ <;> simp [Complex.ONE, Complex.ZERO]
    · refine Complex.ext ?_ ?_ <;> simp [Complex.ZERO]
  rw [hC]
  rw [applyDeutschOracle_balanced_identity, okBind]
  rw [applyGate_q0_fourAmps, okBind]
  have hE : fourAmps
      ((QuantumGates.H.el 0 0).mul Complex.ONE + (QuantumGates.H.el 0 1).mul Complex.ZERO)
      ((QuantumGates.H.el 1 0).mul Complex.ONE + (QuantumGates.H.el 1 1).mul Complex.ZERO)
      ((QuantumGates.H.el 0 0).mul Complex.ZERO + (QuantumGates.H.el 0 1).mul Complex.ONE)
      ((QuantumGates.H.el 1 0).mul Complex.ZERO + (QuantumGates.H.el 1 1).mul Complex.ONE)
      = fourAmps ⟨1 / Real.sqrt 2, 0⟩ ⟨1 / Real.sqrt 2, 0⟩
          ⟨1 / Real.sqrt 2, 0⟩ ⟨-(1 / Real.sqrt 2), 0⟩ := by
    rw [H_el_00, H_el_01, H_el_10, H_el_11]
    refine fourAmps_congr ?_ ?_ ?_ ?_ <;>
      refine Complex.ext ?_ ?_ <;> simp [Complex.ONE, Complex.ZERO]
  rw [hE]
  have hmk : ∃ p, (QuantumRegister.mk 2 (fourAmps ⟨1 / Real.sqrt 2, 0⟩ ⟨1 / Real.sqrt 2, 0⟩
      ⟨1 / Real.sqrt 2, 0⟩ ⟨-(1 / Real.sqrt 2), 0⟩)).measureQubit 0 r = Except.ok p := by
    unfold QuantumRegister.measureQubit
    rw [if_neg (by norm_num)]
    exact ⟨_, rfl⟩
  obtain ⟨⟨result, reg'⟩, hok⟩ := hmk
  obtain ⟨hres, -, -⟩ := measureQubit_inversion (by norm_num) hok
  have hprob : (∑ t in Finset.range (QuantumRegister.mk 2 (fourAmps ⟨1 / Real.sqrt 2, 0⟩
      ⟨1 / Real.sqrt 2, 0⟩ ⟨1 / Real.sqrt 2, 0⟩ ⟨-(1 / Real.sqrt 2), 0⟩)).dimension,
      if (t >>> 0) &&& 1 = 0
      then (QuantumRegister.mk 2 (fourAmps ⟨1 / Real.sqrt 2, 0⟩ ⟨1 / Real.sqrt 2, 0⟩
        ⟨1 / Real.sqrt 2, 0⟩ ⟨-(1 / Real.sqrt 2), 0⟩)).getProbability t else 0) = 1 := by
    show (∑ t in Finset.range 4, _) = 1
    rw [Finset.sum_range_succ, Finset.sum_range_succ, Finset.sum_range_succ,
      Finset.sum_range_succ, Finset.sum_range_zero]
    rw [if_pos (show ((0 : ℕ) >>> 0) &&& 1 = 0 by decide),
      if_neg (show ¬(((1 : ℕ) >>> 0) &&& 1 = 0) by decide),
      if_pos (show ((2 : ℕ) >>> 0) &&& 1 = 0 by decide),
      if_neg (show ¬(((3 : ℕ) >>> 0) &&& 1 = 0) by decide)]
    unfold QuantumRegister.getProbability
    simp only [Complex.absSq]
    show 0 + ((1 / Real.sqrt 2) * (1 / Real.sqrt 2) + 0 * 0) + 0
      + ((1 / Real.sqrt 2) * (1 / Real.sqrt 2) + 0 * 0) + 0 = 1
    rw [half_ss]
    norm_num
  rw [hprob, if_pos hr1] at hres
  subst hres
  rw [hok, okBind]
  refine ⟨_, rfl, ?_, ?_, ?_, ?_⟩
  · rfl
  · show ("константная" : String) ≠ "сбалансированная"
    decide
  · rfl
  · rfl

/-- Claim C2 witness: the failing run at the concrete sample r = 1/2. -/
theorem claim_C2_witness :
    (0 : ℝ) ≤ 1/2 ∧ (1/2 : ℝ) < 1
    ∧ ∃ res, deutschAlgorithm "balanced-identity" (1/2) = Except.ok res
        ∧ res.interp = "константная"
        ∧ res.interp ≠ "сбалансированная"
        ∧ res.measurementResult = 0
        ∧ res.isCorrect = false :=
  ⟨by norm_num, by norm_num, claim_C2 (1/2) (by norm_num) (by norm_num)⟩

/-- The Grover phase oracle for target 2 on an explicit 2-qubit register:
the diagonal matrix negates the amplitude of index 2. -/
theorem applyGroverOracle_fourAmps (a0 a1 a2 a3 : Complex) :
    applyGroverOracle (QuantumRegister.mk 2 (fourAmps a0 a1 a2 a3)) 2
      = Except.ok (QuantumRegister.mk 2
          (fourAmps a0 a1 ((Complex.mk (-1) 0).mul a2) a3)) := by
  unfold applyGroverOracle
  rw [mapM_getAmplitude_mk2, okBind]
  rw [show (fourAmps a0 a1 a2 a3) 0 = a0 from rfl,
    show (fourAmps a0 a1 a2 a3) 1 = a1 from rfl,
    show (fourAmps a0 a1 a2 a3) 2 = a2 from rfl,
    show (fourAmps a0 a1 a2 a3) 3 = a3 from rfl]
  show ((QuantumMatrix.mk
      [[Complex.ONE, Complex.ZERO, Complex.ZERO, Complex.ZERO],
       [Complex.ZERO, Complex.ONE, Complex.ZERO, Complex.ZERO],
       [Complex.ZERO, Complex.ZERO, Complex.mk (-1) 0, Complex.ZERO],
       [Complex.ZERO, Complex.ZERO, Complex.ZERO, Complex.ONE]]).apply [a0, a1, a2, a3]
      >>= fun newAmplitudes =>
        setAllAmplitudes (QuantumRegister.mk 2 (fourAmps a0 a1 a2 a3)) newAmplitudes)
    = Except.ok (QuantumRegister.mk 2 (fourAmps a0 a1 ((Complex.mk (-1) 0).mul a2) a3))
  rw [apply_four (QuantumMatrix.mk
      [[Complex.ONE, Complex.ZERO, Complex.ZERO, Complex.ZERO],
       [Complex.ZERO, Complex.ONE, Complex.ZERO, Complex.ZERO],
       [Complex.ZERO, Complex.ZERO, Complex.mk (-1) 0, Complex.ZERO],
       [Complex.ZERO, Complex.ZERO, Complex.ZERO, Complex.ONE]]) rfl rfl, okBind]
  have hrows : [Complex.ONE.mul a0 + Complex.ZERO.mul a1 + Complex.ZERO.mul a2
        + Complex.ZERO.mul a3,
      Complex.ZERO.mul a0 + Complex.ONE.mul a1 + Complex.ZERO.mul a2 + Complex.ZERO.mul a3,
      Complex.ZERO.mul a0 + Complex.ZERO.mul a1 + (Complex.mk (-1) 0).mul a2
        + Complex.ZERO.mul a3,
      Complex.ZERO.mul a0 + Complex.ZERO.mul a1 + Complex.ZERO.mul a2 + Complex.ONE.mul a3]
      = [a0, a1, (Complex.mk (-1) 0).mul a2, a3] := by
    simp
  show setAllAmplitudes (QuantumRegister.mk 2 (fourAmps a0 a1 a2 a3))
      [Complex.ONE.mul a0 + Complex.ZERO.mul a1 + Complex.ZERO.mul a2 + Complex.ZERO.mul a3,
       Complex.ZERO.mul a0 + Complex.ONE.mul a1 + Complex.ZERO.mul a2 + Complex.ZERO.mul a3,
       Complex.ZERO.mul a0 + Complex.ZERO.mul a1 + (Complex.mk (-1) 0).mul a2
         + Complex.ZERO.mul a3,
       Complex.ZERO.mul a0 + Complex.ZERO.mul a1 + Complex.ZERO.mul a2 + Complex.ONE.mul a3]
    = Except.ok (QuantumRegister.mk 2 (fourAmps a0 a1 ((Complex.mk (-1) 0).mul a2) a3))
  rw [hrows]
  exact setAll_fourAmps _ (fourAmps_zero_tail a0 a1 a2 a3) a0 a1 _ a3

theorem groverIterate_one (t : ℕ) (reg : QuantumRegister) :
    groverIterate t 1 reg = (do
      let reg1 ← applyGroverOracle reg t
      let reg2 ← applyGroverDiffuser reg1
      Except.ok reg2) := rfl

/-- Claim C9: groverAlgorithm(2, 1) succeeds for every sample and the target
probability recorded immediately before the final measurement is 1, which is
strictly greater than 0.25. -/
theorem claim_C9 (r : ℝ) :
    ∃ res, groverAlgorithm 2 (some 1) r = Except.ok res
      ∧ res.targetProbability = 1 ∧ res.targetProbability > 1/4 := by
  unfold groverAlgorithm
  rw [if_neg (by norm_num)]
  simp only [Option.getD_some]
  rw [make_two_eval, okBind, initial_eq_fourAmps]
  rw [applyGate_q0_fourAmps, okBind]
  have hB : fourAmps
      ((QuantumGates.H.el 0 0).mul Complex.ONE + (QuantumGates.H.el 0 1).mul Complex.ZERO)
      ((QuantumGates.H.el 1 0).mul Complex.ONE + (QuantumGates.H.el 1 1).mul Complex.ZERO)
      ((QuantumGates.H.el 0 0).mul Complex.ZERO + (QuantumGates.H.el 0 1).mul Complex.ZERO)
      ((QuantumGates.H.el 1 0).mul Complex.ZERO + (QuantumGates.H.el 1 1).mul Complex.ZERO)
      = fourAmps ⟨1 / Real.sqrt 2, 0⟩ ⟨1 / Real.sqrt 2, 0⟩ Complex.ZERO Complex.ZERO := by
    rw [H_el_00, H_el_01, H_el_10, H_el_11]
    refine fourAmps_congr ?_ ?_ ?_ ?_ <;>
      refine Complex.ext ?_ ?_ <;> simp [Complex.ONE, Complex.ZERO]
  rw [hB]
  rw [applyGate_q1_fourAmps, okBind]
  have hC : fourAmps
      ((QuantumGates.H.el 0 0).mul ⟨1 / Real.sqrt 2, 0⟩
        + (QuantumGates.H.el 0 1).mul Complex.ZERO)
      ((QuantumGates.H.el 0 0).mul ⟨1 / Real.sqrt 2, 0⟩
        + (QuantumGates.H.el 0 1).mul Complex.ZERO)
      ((QuantumGates.H.el 1 0).mul ⟨1 / Real.sqrt 2, 0⟩
        + (QuantumGates.H.el 1 1).mul Complex.ZERO)
      ((QuantumGates.H.el 1 0).mul ⟨1 / Real.sqrt 2, 0⟩
        + (QuantumGates.H.el 1 1).mul Complex.ZERO)
      = fourAmps ⟨1/2, 0⟩ ⟨1/2, 0⟩ ⟨1/2, 0⟩ ⟨1/2, 0⟩ := by
    rw [H_el_00, H_el_01, H_el_10, H_el_11]
    refine fourAmps_congr ?_ ?_ ?_ ?_ <;>
      refine Complex.ext ?_ ?_ <;> simp [Complex.ZERO] <;>
        field_simp <;> linarith [sq2]
  rw [hC]
  rw [groverIterate_one]
  rw [applyGroverOracle_fourAmps, okBind]
  have hD : fourAmps ⟨1/2, 0⟩ ⟨1/2, 0⟩ ((Complex.mk (-1) 0).mul ⟨1/2, 0⟩) ⟨1/2, 0⟩
      = fourAmps ⟨1/2, 0⟩ ⟨1/2, 0⟩ ⟨-(1/2), 0⟩ ⟨1/2, 0⟩ := by
    refine fourAmps_congr rfl rfl ?_ rfl
    refine Complex.ext ?_ ?_ <;> norm_num
  rw [hD]
  unfold applyGroverDiffuser
  rw [applyGate_q0_fourAmps, okBind]
  have hE : fourAmps
      ((QuantumGates.H.el 0 0).mul ⟨1/2, 0⟩ + (QuantumGates.H.el 0 1).mul ⟨1/2, 0⟩)
      ((QuantumGates.H.el 1 0).mul ⟨1/2, 0⟩ + (QuantumGates.H.el 1 1).mul ⟨1/2, 0⟩)
      ((QuantumGates.H.el 0 0).mul ⟨-(1/2), 0⟩ + (QuantumGates.H.el 0 1).mul ⟨1/2, 0⟩)
      ((QuantumGates.H.el 1 0).mul ⟨-(1/2), 0⟩ + (QuantumGates.H.el 1 1).mul ⟨1/2, 0⟩)
      = fourAmps ⟨1 / Real.sqrt 2, 0⟩ Complex.ZERO Complex.ZERO
          ⟨-(1 / Real.sqrt 2), 0⟩ := by
    rw [H_el_00, H_el_01, H_el_10, H_el_11]
    refine fourAmps_congr ?_ ?_ ?_ ?_ <;>
      refine Complex.ext ?_ ?_ <;> simp [Complex.ZERO] <;> ring
  rw [hE]
  rw [applyGate_q1_fourAmps, okBind]
  have hF : fourAmps
      ((QuantumGates.H.el 0 0).mul ⟨1 / Real.sqrt 2, 0⟩
        + (QuantumGates.H.el 0 1).mul Complex.ZERO)
      ((QuantumGates.H.el 0 0).mul Complex.ZERO
        + (QuantumGates.H.el 0 1).mul ⟨-(1 / Real.sqrt 2), 0⟩)
      ((QuantumGates.H.el 1 0).mul ⟨1 / Real.sqrt 2, 0⟩
        + (QuantumGates.H.el 1 1).mul Complex.ZERO)
      ((QuantumGates.H.el 1 0).mul Complex.ZERO
        + (QuantumGates.H.el 1 1).mul ⟨-(1 / Real.sqrt 2), 0⟩)
      = fourAmps ⟨1/2, 0⟩ ⟨-(1/2), 0⟩ ⟨1/2, 0⟩ ⟨1/2, 0⟩ := by
    rw [H_el_00, H_el_01, H_el_10, H_el_11]
    refine fourAmps_congr ?_ ?_ ?_ ?_ <;>
      refine Complex.ext ?_ ?_ <;> simp [Complex.ZERO] <;>
        field_simp <;> linarith [sq2]
  rw [hF]
  rw [getAmplitude_mk2 _ 0 (by norm_num), okBind]
  rw [setAmplitude_mk2 _ 0 (by norm_num) _, okBind]
  rw [show (fourAmps ⟨1/2, 0⟩ ⟨-(1/2), 0⟩ ⟨1/2, 0⟩ ⟨1/2, 0⟩) 0 = (⟨1/2, 0⟩ : Complex)
    from rfl]
  rw [update0_fourAmps]
  have hG : (Complex.mk (1/2) 0).mul ⟨-1, 0⟩ = Complex.mk (-(1/2)) 0 := by
    refine Complex.ext ?_ ?_ <;> norm_num
  rw [hG]
  rw [applyGate_q0_fourAmps, okBind]
  have hH : fourAmps
      ((QuantumGates.H.el 0 0).mul ⟨-(1/2), 0⟩ + (QuantumGates.H.el 0 1).mul ⟨-(1/2), 0⟩)
      ((QuantumGates.H.el 1 0).mul ⟨-(1/2), 0⟩ + (QuantumGates.H.el 1 1).mul ⟨-(1/2), 0⟩)
      ((QuantumGates.H.el 0 0).mul ⟨1/2, 0⟩ + (QuantumGates.H.el 0 1).mul ⟨1/2, 0⟩)
      ((QuantumGates.H.el 1 0).mul ⟨1/2, 0⟩ + (QuantumGates.H.el 1 1).mul ⟨1/2, 0⟩)
      = fourAmps ⟨-(1 / Real.sqrt 2), 0⟩ Complex.ZERO ⟨1 / Real.sqrt 2, 0⟩
          Complex.ZERO := by
    rw [H_el_00, H_el_01, H_el_10, H_el_11]
    refine fourAmps_congr ?_ ?_ ?_ ?_ <;>
      refine Complex.ext ?_ ?_ <;> simp [Complex.ZERO] <;> ring
  rw [hH]
  rw [applyGate_q1_fourAmps, okBind]
  have hI : fourAmps
      ((QuantumGates.H.el 0 0).mul ⟨-(1 / Real.sqrt 2), 0⟩
        + (QuantumGates.H.el 0 1).mul ⟨1 / Real.sqrt 2, 0⟩)
      ((QuantumGates.H.el 0 0).mul Complex.ZERO + (QuantumGates.H.el 0 1).mul Complex.ZERO)
      ((QuantumGates.H.el 1 0).mul ⟨-(1 / Real.sqrt 2), 0⟩
        + (QuantumGates.H.el 1 1).mul ⟨1 / Real.sqrt 2, 0⟩)
      ((QuantumGates.H.el 1 0).mul Complex.ZERO + (QuantumGates.H.el 1 1).mul Complex.ZERO)
      = fourAmps Complex.ZERO Complex.ZERO (Complex.mk (-1) 0) Complex.ZERO := by
    rw [H_el_00, H_el_01, H_el_10, H_el_11]
    refine fourAmps_congr ?_ ?_ ?_ ?_ <;>
      refine Complex.ext ?_ ?_ <;> simp [Complex.ZERO] <;>
        field_simp <;> linarith [sq2]
  rw [hI]
  rw [okBind]
  rcases hpair : (QuantumRegister.mk 2 (fourAmps Complex.ZERO Complex.ZERO
      (Complex.mk (-1) 0) Complex.ZERO)).measureAll r with ⟨m, reg2⟩
  have htp : ((QuantumRegister.mk 2 (fourAmps Complex.ZERO Complex.ZERO
      (Complex.mk (-1) 0) Complex.ZERO)).getAllProbabilities).getD 2 0 = 1 := by
    show (QuantumRegister.mk 2 (fourAmps Complex.ZERO Complex.ZERO
      (Complex.mk (-1) 0) Complex.ZERO)).getProbability 2 = 1
    unfold QuantumRegister.getProbability
    rw [Complex.absSq]
    show (-1 : ℝ) * (-1) + 0 * 0 = 1
    norm_num
  refine ⟨_, rfl, ?_, ?_⟩
  · show ((QuantumRegister.mk 2 (fourAmps Complex.ZERO Complex.ZERO
      (Complex.mk (-1) 0) Complex.ZERO)).getAllProbabilities).getD 2 0 = 1
    exact htp
  · show ((QuantumRegister.mk 2 (fourAmps Complex.ZERO Complex.ZERO
      (Complex.mk (-1) 0) Complex.ZERO)).getAllProbabilities).getD 2 0 > 1/4
    rw [htp]
    norm_num

theorem QuantumState.eq_of_parts {s1 s2 : QuantumState} (ha : s1.alpha = s2.alpha)
    (hb : s1.beta = s2.beta) : s1 = s2 := by
  cases s1; cases s2; simp_all

theorem inv_sqrt2_nonneg : (0 : ℝ) ≤ 1 / Real.sqrt 2 := by
  have := Real.sqrt_nonneg 2
  positivity

theorem inv_sqrt2_ge_half : (1 : ℝ) / 2 ≤ 1 / Real.sqrt 2 := by
  have h2 : Real.sqrt 2 ≤ 2 := by nlinarith [sq2, Real.sqrt_nonneg 2]
  have hpos : (0 : ℝ) < Real.sqrt 2 := Real.sqrt_pos.mpr (by norm_num)
  rw [div_le_div_iff (by norm_num) hpos]
  linarith

theorem sqrt_half_eq : Real.sqrt (1/2) = 1 / Real.sqrt 2 := by
  rw [show (1/2 : ℝ) = 2⁻¹ by norm_num, Real.sqrt_inv, one_div]

theorem zero_eval : QuantumState.zero = ⟨Complex.ONE, Complex.ZERO⟩ := by
  unfold QuantumState.zero QuantumState.make QuantumState.normalizeState
  simp only []
  have hn : Real.sqrt (Complex.ONE.abs * Complex.ONE.abs
      + Complex.ZERO.abs * Complex.ZERO.abs) = 1 := by
    rw [Complex.abs_one_c, Complex.abs_ZERO_c]
    norm_num
  rw [hn, if_neg (by norm_num)]
  refine QuantumState.eq_of_parts ?_ ?_ <;> refine Complex.ext ?_ ?_ <;>
    simp [Complex.ONE, Complex.ZERO]

theorem plus_eval :
    QuantumState.plus = ⟨⟨1 / Real.sqrt 2, 0⟩, ⟨1 / Real.sqrt 2, 0⟩⟩ := by
  unfold QuantumState.plus QuantumState.make QuantumState.normalizeState
  simp only []
  have hn : Real.sqrt ((Complex.mk (1 / Real.sqrt 2) 0).abs
      * (Complex.mk (1 / Real.sqrt 2) 0).abs
      + (Complex.mk (1 / Real.sqrt 2) 0).abs * (Complex.mk (1 / Real.sqrt 2) 0).abs) = 1 := by
    rw [Complex.abs_real inv_sqrt2_nonneg, half_ss]
    norm_num
  rw [hn, if_neg (by norm_num)]
  refine QuantumState.eq_of_parts ?_ ?_ <;> refine Complex.ext ?_ ?_ <;> simp

/-- Claim C10: applying CNOT to |+⟩ and |0⟩ through the two-single-qubit-state
path does not represent the entangled output: the tensor product of the two
returned states differs from the CNOT image of the tensor product of the
inputs. -/
theorem claim_C10 :
    ∃ p : QuantumState × QuantumState,
      QuantumGates.applyTwoQubitGate QuantumState.plus QuantumState.zero QuantumGates.CNOT
        = Except.ok p
      ∧ ∃ w : List Complex,
          QuantumGates.CNOT.apply
            [QuantumState.plus.alpha.mul QuantumState.zero.alpha,
             QuantumState.plus.alpha.mul QuantumState.zero.beta,
             QuantumState.plus.beta.mul QuantumState.zero.alpha,
             QuantumState.plus.beta.mul QuantumState.zero.beta] = Except.ok w
          ∧ ComplexUtils.tensorProduct [p.1.alpha, p.1.beta] [p.2.alpha, p.2.beta] ≠ w := by
  have hS : QuantumState.make
      ⟨(((Complex.mk (1 / Real.sqrt 2) 0).mul Complex.ONE).abs
          + ((Complex.mk (1 / Real.sqrt 2) 0).mul Complex.ZERO).abs) / Real.sqrt 2, 0⟩
      ⟨(((Complex.mk (1 / Real.sqrt 2) 0).mul Complex.ZERO).abs
          + ((Complex.mk (1 / Real.sqrt 2) 0).mul Complex.ONE).abs) / Real.sqrt 2, 0⟩
      = QuantumState.mk ⟨1 / Real.sqrt 2, 0⟩ ⟨1 / Real.sqrt 2, 0⟩ := by
    have habs1 : ((Complex.mk (1 / Real.sqrt 2) 0).mul Complex.ONE).abs = 1 / Real.sqrt 2 := by
      rw [show (Complex.mk (1 / Real.sqrt 2) 0).mul Complex.ONE
        = Complex.mk (1 / Real.sqrt 2) 0 from Complex.ext (by simp [Complex.ONE])
          (by simp [Complex.ONE])]
      exact Complex.abs_real inv_sqrt2_nonneg
    have habs0 : ((Complex.mk (1 / Real.sqrt 2) 0).mul Complex.ZERO).abs = 0 := by
      rw [Complex.mul_zero_c]
      exact Complex.abs_zero_c
    rw [habs1, habs0]
    have harg : ((1 / Real.sqrt 2 + 0) / Real.sqrt 2 : ℝ) = 1/2 := by
      rw [add_zero, div_div, sq2]
    have harg' : ((0 + 1 / Real.sqrt 2) / Real.sqrt 2 : ℝ) = 1/2 := by
      rw [zero_add, div_div, sq2]
    rw [harg, harg']
    unfold QuantumState.make QuantumState.normalizeState
    simp only []
    have hn : Real.sqrt ((Complex.mk (1/2) 0).abs * (Complex.mk (1/2) 0).abs
        + (Complex.mk (1/2) 0).abs * (Complex.mk (1/2) 0).abs) = 1 / Real.sqrt 2 := by
      rw [Complex.abs_real (by norm_num)]
      rw [show ((1:ℝ)/2 * (1/2) + 1/2 * (1/2)) = 1/2 by norm_num]
      exact sqrt_half_eq
    rw [hn, if_neg (by
      push_neg
      calc (1 : ℝ) / 10 ^ 15 ≤ 1 / 2 := by norm_num
        _ ≤ 1 / Real.sqrt 2 := inv_sqrt2_ge_half)]
    refine QuantumState.eq_of_parts ?_ ?_ <;> refine Complex.ext ?_ ?_ <;>
      (field_simp [sqrt2_ne]; try nlinarith [sq2, Real.sqrt_nonneg 2])
  unfold QuantumGates.applyTwoQubitGate
  rw [plus_eval, zero_eval]
  simp only []
  rw [CNOT_apply_four, okBind]
  refine ⟨_, rfl, _, rfl, ?_⟩
  intro h
  have h1 := congrArg (fun l => (l.getD 1 Complex.ZERO).re) h
  simp only [] at h1
  have h2 : ((QuantumState.make
      ⟨(((Complex.mk (1 / Real.sqrt 2) 0).mul Complex.ONE).abs
          + ((Complex.mk (1 / Real.sqrt 2) 0).mul Complex.ZERO).abs) / Real.sqrt 2, 0⟩
      ⟨(((Complex.mk (1 / Real.sqrt 2) 0).mul Complex.ZERO).abs
          + ((Complex.mk (1 / Real.sqrt 2) 0).mul Complex.ONE).abs) / Real.sqrt 2, 0⟩).alpha.mul
      (QuantumState.make
      ⟨(((Complex.mk (1 / Real.sqrt 2) 0).mul Complex.ONE).abs
          + ((Complex.mk (1 / Real.sqrt 2) 0).mul Complex.ZERO).abs) / Real.sqrt 2, 0⟩
      ⟨(((Complex.mk (1 / Real.sqrt 2) 0).mul Complex.ZERO).abs
          + ((Complex.mk (1 / Real.sqrt 2) 0).mul Complex.ONE).abs) / Real.sqrt 2, 0⟩).beta).re
      = ((Complex.mk (1 / Real.sqrt 2) 0).mul Complex.ZERO).re := h1
  rw [hS] at h2
  have h3 : (1 / Real.sqrt 2) * (1 / Real.sqrt 2) - 0 * 0
      = (1 / Real.sqrt 2) * 0 - 0 * 0 := h2
  rw [half_ss] at h3
  norm_num at h3

end

end Qsim
